import Mathlib

/-!
# Bit-banged serial drivers timed by the DWT cycle counter

A shallow embedding of the three bare-metal STM32H7 programs

* `UART_GPIO/main.c`       (software UART transmitter, 8N1, LSB first),
* `SPI_GPIO/main.c`        (software SPI master, mode 0, MSB first),
* `UART_Perifericos/main.c` (USART3 peripheral transmitter).

Memory-mapped registers are fields of one machine state `Hw`.  Machine words
are natural numbers reduced modulo `2^32` where the C code wraps.  The two
volatile inputs of the programs, the free-running cycle counter and the GPIO
input data register, are driven by an environment `Env`.  Busy-wait loops take
a fuel argument and return `none` when the fuel is exhausted.  A ghost `trace`
logs the register-level actions in program order.
-/

namespace Stm32

/-! ## Machine words -/

/-- Truncation of a value to `uint32_t`. -/
def u32 (x : Nat) : Nat := x % 4294967296

/-- Subtraction of two `uint32_t` values, wrapping modulo `2^32`. -/
def sub32 (a b : Nat) : Nat := (a % 4294967296 + (4294967296 - b % 4294967296)) % 4294967296

/-- Addition of two `uint32_t` values, wrapping modulo `2^32`. -/
def add32 (a b : Nat) : Nat := (a + b) % 4294967296

/-- The cast `(int32_t)x` of a `uint32_t` value (two's complement). -/
def toInt32 (x : Nat) : Int :=
  if x % 4294967296 < 2147483648 then ((x % 4294967296 : Nat) : Int)
  else ((x % 4294967296 : Nat) : Int) - 4294967296

/-- The complement `~m` of a `uint32_t` value. -/
def not32 (m : Nat) : Nat := 4294967295 ^^^ (m % 4294967296)

/-! ## Machine state and environment -/

/-- Register-level actions, logged in program order. -/
inductive Event where
  | irq_disable
  | irq_enable
  | bsrr (v : Nat)
  | wait_until (deadline : Nat)
  | delay_us (us : Nat)
  | idr (v : Nat)
deriving DecidableEq, Repr

/-- The registers the programs touch, and the ghost log.
`polls` counts the reads of `DWT->CYCCNT` made so far and `samples` the reads of
`GPIOA->IDR`; both index the environment. -/
structure Hw where
  DEMCR : Nat
  LAR : Nat
  CYCCNT : Nat
  CTRL : Nat
  AHB4ENR : Nat
  MODER : Nat
  OTYPER : Nat
  OSPEEDR : Nat
  PUPDR : Nat
  ODR : Nat
  PRIMASK : Bool
  polls : Nat
  samples : Nat
  trace : List Event
deriving DecidableEq, Repr

/-- The volatile inputs: `dt k` is the number of CPU cycles that pass between the
`k`-th read of the cycle counter and the next one; `idr k` is the word returned by
the `k`-th read of the GPIO input data register. -/
structure Env where
  dt : Nat → Nat
  idr : Nat → Nat

/-- The cycle counter runs when the trace block is enabled (`DEMCR.TRCENA`, bit 24)
and the counter is switched on (`DWT_CTRL.CYCCNTENA`, bit 0). -/
def counting (s : Hw) : Bool := s.DEMCR.testBit 24 && s.CTRL.testBit 0

/-- Passage of `n` CPU cycles: a running counter advances modulo `2^32`. -/
def elapse (n : Nat) (s : Hw) : Hw :=
  if counting s then { s with CYCCNT := (s.CYCCNT + n) % 4294967296 } else s

/-- One volatile read of `DWT->CYCCNT`: returns the current count; the cycles the
environment assigns to this read pass afterwards. -/
def rd_CYCCNT (env : Env) (s : Hw) : Nat × Hw :=
  (s.CYCCNT % 4294967296, elapse (env.dt s.polls) { s with polls := s.polls + 1 })

/-- The output latch after a store of `v` to BSRR: bits 0..15 of `v` set output
pins, bits 16..31 reset them (set wins), other pins keep their level. -/
def wrODR (odr v : Nat) : Nat := (odr &&& (65535 ^^^ ((v >>> 16) &&& 65535))) ||| (v &&& 65535)

/-- A store of `v` to `GPIOx->BSRR`. -/
def wr_BSRR (v : Nat) (s : Hw) : Hw :=
  { s with ODR := wrODR s.ODR v, trace := s.trace ++ [Event.bsrr v] }

/-- One volatile read of `GPIOA->IDR`. -/
def rd_IDR (env : Env) (s : Hw) : Nat × Hw :=
  (env.idr s.samples,
   { s with samples := s.samples + 1, trace := s.trace ++ [Event.idr (env.idr s.samples)] })

/-- CMSIS `__disable_irq()`. -/
def __disable_irq (s : Hw) : Hw :=
  { s with PRIMASK := true, trace := s.trace ++ [Event.irq_disable] }

/-- CMSIS `__enable_irq()`. -/
def __enable_irq (s : Hw) : Hw :=
  { s with PRIMASK := false, trace := s.trace ++ [Event.irq_enable] }

/-- The busy-wait loop `while ((uint32_t)(DWT->CYCCNT - start) < cycles) { }`, the
body of every `delay_us` / `delay_ms` of the three programs.  The 32-bit elapsed
count is compared with `cycles` as a number, so the loop serves both the
`uint32_t` and the `uint64_t` thresholds. -/
def elapsed_spin (env : Env) (start cycles : Nat) : Nat → Hw → Option Hw
  | 0, _ => none
  | fuel + 1, s =>
    if sub32 (rd_CYCCNT env s).1 start < cycles then
      elapsed_spin env start cycles fuel (rd_CYCCNT env s).2
    else some (rd_CYCCNT env s).2

/-- The environment in which the counter advances by one between polls. -/
def tick : Env := { dt := fun _ => 1, idr := fun _ => 0 }

/-- An environment in which at least one and at most `2^31` cycles pass between
two consecutive polls of the counter. -/
def Env.live (env : Env) : Prop := ∀ k, 1 ≤ env.dt k ∧ env.dt k ≤ 2147483648

/-- A machine with all registers zero and an empty log. -/
def reset : Hw :=
  { DEMCR := 0, LAR := 0, CYCCNT := 0, CTRL := 0, AHB4ENR := 0, MODER := 0, OTYPER := 0,
    OSPEEDR := 0, PUPDR := 0, ODR := 0, PRIMASK := false, polls := 0, samples := 0, trace := [] }

/-- The output latch after replaying the BSRR stores of a log from `odr`. -/
def odrAfter : Nat → List Event → Nat
  | odr, [] => odr
  | odr, Event.bsrr v :: es => odrAfter (wrODR odr v) es
  | odr, _ :: es => odrAfter odr es

/-- Two states agree on everything but the cycle counter and the poll index. -/
def sameButClock (s s' : Hw) : Prop :=
  s' = { s with CYCCNT := s'.CYCCNT, polls := s'.polls }

end Stm32

/-! ## `UART_GPIO/main.c` -/

namespace UART_GPIO_main
open Stm32

def TX_PIN : Nat := 5
def BAUD_RATE : Nat := 9600

/-- The macro `#define BIT_CYCLES (SystemCoreClock / BAUD_RATE)`; `SystemCoreClock` is
the CMSIS `uint32_t` global, taken as a parameter. -/
def BIT_CYCLES (SystemCoreClock : Nat) : Nat := u32 SystemCoreClock / BAUD_RATE

def tx_high (s : Hw) : Hw := wr_BSRR (1 <<< TX_PIN) s
def tx_low (s : Hw) : Hw := wr_BSRR (1 <<< (TX_PIN + 16)) s

/-- The function `DWT_Init`; the CMSIS masks `CoreDebug_DEMCR_TRCENA_Msk` and
`DWT_CTRL_CYCCNTENA_Msk` are bit 24 and bit 0, as `SPI_GPIO/main.c` spells them out. -/
def DWT_Init (s : Hw) : Hw :=
  { s with DEMCR := s.DEMCR ||| (1 <<< 24), LAR := 3316436565, CYCCNT := 0,
           CTRL := s.CTRL ||| 1 }

/-- The loop `while ((int32_t)(DWT->CYCCNT - deadline_cycles) < 0) { __NOP(); }`: every
iteration reads the counter once. -/
def wait_until_spin (env : Env) (deadline_cycles : Nat) : Nat → Hw → Option Hw
  | 0, _ => none
  | fuel + 1, s =>
    if toInt32 (sub32 (rd_CYCCNT env s).1 deadline_cycles) < 0 then
      wait_until_spin env deadline_cycles fuel (rd_CYCCNT env s).2
    else some (rd_CYCCNT env s).2

/-- The call `wait_until(deadline_cycles)`; the ghost log records the call. -/
def wait_until (env : Env) (fuel : Nat) (deadline_cycles : Nat) (s : Hw) : Option Hw :=
  wait_until_spin env deadline_cycles fuel
    { s with trace := s.trace ++ [Event.wait_until deadline_cycles] }

/-- The threshold `(uint64_t)SystemCoreClock * ms / 1000u`. -/
def delay_ms_cycles (SystemCoreClock ms : Nat) : Nat :=
  (u32 SystemCoreClock * u32 ms) % 18446744073709551616 / 1000

def delay_ms (env : Env) (SystemCoreClock : Nat) (fuel : Nat) (ms : Nat) (s : Hw) : Option Hw :=
  elapsed_spin env (rd_CYCCNT env s).1 (delay_ms_cycles SystemCoreClock ms) fuel
    (rd_CYCCNT env s).2

/-- The function `GPIO_Init_TX`; the CMSIS mask `RCC_AHB4ENR_GPIOAEN` is bit 0. -/
def GPIO_Init_TX (s : Hw) : Hw :=
  tx_high
    { s with AHB4ENR := s.AHB4ENR ||| 1,
             MODER := (s.MODER &&& not32 (3 <<< (TX_PIN * 2))) ||| (1 <<< (TX_PIN * 2)),
             OTYPER := s.OTYPER &&& not32 (1 <<< TX_PIN),
             OSPEEDR := s.OSPEEDR ||| (3 <<< (TX_PIN * 2)),
             PUPDR := s.PUPDR &&& not32 (3 <<< (TX_PIN * 2)) }

/-- The loop `for (int i = 0; i < 8; i++)` of `UART_SendByte`, entered with loop
variable `i` and `n = 8 - i` iterations to go; returns the final `deadline`. -/
def UART_SendByte_bits (env : Env) (SystemCoreClock : Nat) (fuel : Nat) (b : Nat) :
    Nat → Nat → Nat → Hw → Option (Nat × Hw)
  | 0, _, deadline, s => some (deadline, s)
  | n + 1, i, deadline, s =>
    match wait_until env fuel (add32 deadline (BIT_CYCLES SystemCoreClock))
        (if (b % 256) &&& (1 <<< i) ≠ 0 then tx_high s else tx_low s) with
    | none => none
    | some s2 =>
      UART_SendByte_bits env SystemCoreClock fuel b n (i + 1)
        (add32 deadline (BIT_CYCLES SystemCoreClock)) s2

def UART_SendByte (env : Env) (SystemCoreClock : Nat) (fuel : Nat) (b : Nat) (s : Hw) :
    Option Hw :=
  let r := rd_CYCCNT env (tx_low (__disable_irq s))
  let deadline := add32 r.1 (BIT_CYCLES SystemCoreClock)
  match wait_until env fuel deadline r.2 with
  | none => none
  | some s1 =>
    match UART_SendByte_bits env SystemCoreClock fuel b 8 0 deadline s1 with
    | none => none
    | some (deadline2, s2) =>
      match wait_until env fuel (add32 deadline2 (BIT_CYCLES SystemCoreClock)) (tx_high s2) with
      | none => none
      | some s3 => some (__enable_irq s3)

end UART_GPIO_main

/-! ## `SPI_GPIO/main.c` -/

namespace SPI_GPIO_main
open Stm32

def SPI_SCK : Nat := 5
def SPI_MOSI : Nat := 8
def SPI_MISO : Nat := 6
def SPI_CS : Nat := 4
def CPU_HZ : Nat := 64000000

def sck_high (s : Hw) : Hw := wr_BSRR (1 <<< SPI_SCK) s
def sck_low (s : Hw) : Hw := wr_BSRR (1 <<< (SPI_SCK + 16)) s
def mosi_high (s : Hw) : Hw := wr_BSRR (1 <<< SPI_MOSI) s
def mosi_low (s : Hw) : Hw := wr_BSRR (1 <<< (SPI_MOSI + 16)) s
def cs_high (s : Hw) : Hw := wr_BSRR (1 <<< SPI_CS) s
def cs_low (s : Hw) : Hw := wr_BSRR (1 <<< (SPI_CS + 16)) s

def DWT_Init (s : Hw) : Hw :=
  { s with DEMCR := s.DEMCR ||| (1 <<< 24), LAR := 3316436565, CYCCNT := 0,
           CTRL := s.CTRL ||| (1 <<< 0) }

/-- The threshold `(uint32_t)((CPU_HZ / 1000000UL) * us)`; `unsigned long` is 32 bits
wide on the target. -/
def delay_us_cycles (us : Nat) : Nat := u32 (u32 (CPU_HZ / 1000000) * u32 us)

/-- The threshold `(uint32_t)((CPU_HZ / 1000UL) * ms)`. -/
def delay_ms_cycles (ms : Nat) : Nat := u32 (u32 (CPU_HZ / 1000) * u32 ms)

/-- The call `delay_us(us)`; the ghost log records the call. -/
def delay_us (env : Env) (fuel : Nat) (us : Nat) (s : Hw) : Option Hw :=
  elapsed_spin env (rd_CYCCNT env s).1 (delay_us_cycles us) fuel
    (rd_CYCCNT env { s with trace := s.trace ++ [Event.delay_us us] }).2

def delay_ms (env : Env) (fuel : Nat) (ms : Nat) (s : Hw) : Option Hw :=
  elapsed_spin env (rd_CYCCNT env s).1 (delay_ms_cycles ms) fuel (rd_CYCCNT env s).2

def GPIO_Init_SPI (s : Hw) : Hw :=
  cs_high (mosi_low (sck_low
    { s with
      AHB4ENR := s.AHB4ENR ||| (1 <<< 0),
      MODER :=
        (s.MODER &&& not32 ((3 <<< (SPI_SCK * 2)) ||| (3 <<< (SPI_MOSI * 2)) |||
            (3 <<< (SPI_CS * 2)) ||| (3 <<< (SPI_MISO * 2)))) |||
          ((1 <<< (SPI_SCK * 2)) ||| (1 <<< (SPI_MOSI * 2)) ||| (1 <<< (SPI_CS * 2))),
      OTYPER := s.OTYPER &&& not32 ((1 <<< SPI_SCK) ||| (1 <<< SPI_MOSI) ||| (1 <<< SPI_CS)),
      OSPEEDR :=
        s.OSPEEDR ||| ((3 <<< (SPI_SCK * 2)) ||| (3 <<< (SPI_MOSI * 2)) ||| (3 <<< (SPI_CS * 2))),
      PUPDR :=
        (s.PUPDR &&& not32 ((3 <<< (SPI_SCK * 2)) ||| (3 <<< (SPI_MOSI * 2)) |||
            (3 <<< (SPI_CS * 2)) ||| (3 <<< (SPI_MISO * 2)))) |||
          (1 <<< (SPI_MISO * 2)) }))

/-- The loop `for (int i = 7; i >= 0; --i)` of `SPI_Transfer`: the argument `i + 1`
runs the body with loop variable `i`, the argument `0` is the loop exit. -/
def SPI_Transfer_bits (env : Env) (fuel : Nat) (data : Nat) :
    Nat → Nat → Hw → Option (Nat × Hw)
  | 0, rx, s => some (rx, s)
  | i + 1, rx, s =>
    match delay_us env fuel 10
        (sck_high (if (data % 256) &&& (1 <<< i) ≠ 0 then mosi_high s else mosi_low s)) with
    | none => none
    | some s1 =>
      match delay_us env fuel 10 (sck_low (rd_IDR env s1).2) with
      | none => none
      | some s2 =>
        SPI_Transfer_bits env fuel data i
          (if (rd_IDR env s1).1 &&& (1 <<< SPI_MISO) ≠ 0 then ((rx <<< 1) % 256) ||| 1
           else (rx <<< 1) % 256) s2

def SPI_Transfer (env : Env) (fuel : Nat) (data : Nat) (s : Hw) : Option (Nat × Hw) :=
  match SPI_Transfer_bits env fuel data 8 0 (cs_low s) with
  | none => none
  | some (rx, s1) => some (rx, cs_high s1)

end SPI_GPIO_main

/-! ## `UART_Perifericos/main.c` -/

namespace UART_Perifericos
open Stm32

def UART_BAUDRATE : Nat := 9600
def USART3_CLK_HZ : Nat := 64000000

def brr_from (fclk baud : Nat) : Nat := u32 (u32 fclk + u32 baud / 2) / u32 baud

/-- The function `DWT_Init`, with the CMSIS masks as in `UART_GPIO/main.c`. -/
def DWT_Init (s : Hw) : Hw :=
  { s with DEMCR := s.DEMCR ||| (1 <<< 24), LAR := 3316436565, CYCCNT := 0,
           CTRL := s.CTRL ||| 1 }

/-- The threshold `((uint64_t)SystemCoreClock * ms) / 1000u`. -/
def delay_ms_ticks (SystemCoreClock ms : Nat) : Nat :=
  (u32 SystemCoreClock * u32 ms) % 18446744073709551616 / 1000

def delay_ms (env : Env) (SystemCoreClock : Nat) (fuel : Nat) (ms : Nat) (s : Hw) : Option Hw :=
  elapsed_spin env (rd_CYCCNT env s).1 (delay_ms_ticks SystemCoreClock ms) fuel
    (rd_CYCCNT env s).2

/-- The value stored by `USART3->BRR = brr_from(USART3_CLK_HZ, UART_BAUDRATE);`. -/
def USART3_BRR : Nat := brr_from USART3_CLK_HZ UART_BAUDRATE

end UART_Perifericos

/-! ## Reference behaviour of the UART frame -/

namespace UART_GPIO_main
open Stm32

/-- The BSRR word that drives the TX pin to `level`. -/
def txWord (level : Bool) : Nat := if level then 1 <<< TX_PIN else 1 <<< (TX_PIN + 16)

/-- The log of `n` data-bit periods starting at bit `i`, the previous deadline
being `dl`, for a bit period of `B` cycles. -/
def bitsTrace (B b : Nat) : Nat → Nat → Nat → List Event
  | 0, _, _ => []
  | n + 1, i, dl =>
    Event.bsrr (txWord ((b % 256).testBit i)) :: Event.wait_until (add32 dl B) ::
      bitsTrace B b n (i + 1) (add32 dl B)

/-- The deadline after `n` further bit periods. -/
def bitsDeadline (B : Nat) : Nat → Nat → Nat
  | 0, dl => dl
  | n + 1, dl => bitsDeadline B n (add32 dl B)

/-- The deadlines of the `wait_until` calls in a log, in order. -/
def waitDeadlines : List Event → List Nat
  | [] => []
  | Event.wait_until d :: es => d :: waitDeadlines es
  | _ :: es => waitDeadlines es

end UART_GPIO_main

namespace UART_GPIO_main
open Stm32

/-- The levels driven on the TX pin by the BSRR stores of a log, in order. -/
def txLevels : List Event → List Bool
  | [] => []
  | Event.bsrr v :: es =>
    (if v = 1 <<< TX_PIN then [true] else if v = 1 <<< (TX_PIN + 16) then [false] else []) ++
      txLevels es
  | _ :: es => txLevels es

end UART_GPIO_main

/-! ## Reference behaviour of the SPI transfer -/

namespace SPI_GPIO_main
open Stm32

/-- The BSRR word that drives the MOSI pin to `level`. -/
def mosiWord (level : Bool) : Nat := if level then 1 <<< SPI_MOSI else 1 <<< (SPI_MOSI + 16)

/-- The data-in level carried by a word read from the input data register. -/
def misoLevel (v : Nat) : Bool := v.testBit SPI_MISO

/-- The log of the clock cycles for bits `i - 1` down to `0` of `data`, the next
input sample having index `n`. -/
def cyclesTrace (env : Env) (data : Nat) : Nat → Nat → List Event
  | 0, _ => []
  | i + 1, n =>
    Event.bsrr (mosiWord ((data % 256).testBit i)) :: Event.bsrr (1 <<< SPI_SCK) ::
      Event.delay_us 10 :: Event.idr (env.idr n) :: Event.bsrr (1 <<< (SPI_SCK + 16)) ::
      Event.delay_us 10 :: cyclesTrace env data i (n + 1)

/-- The receive byte after `i` further clock cycles: each sample is shifted in at
the least significant end. -/
def shiftIn (env : Env) : Nat → Nat → Nat → Nat
  | 0, rx, _ => rx
  | i + 1, rx, n => shiftIn env i ((2 * rx) % 256 + (misoLevel (env.idr n)).toNat) (n + 1)

end SPI_GPIO_main

namespace SPI_GPIO_main
open Stm32

/-- The words read from the input data register in a log, in order. -/
def idrReads : List Event → List Nat
  | [] => []
  | Event.idr v :: es => v :: idrReads es
  | _ :: es => idrReads es

/-- The levels driven on the MOSI pin by the BSRR stores of a log, in order. -/
def mosiLevels : List Event → List Bool
  | [] => []
  | Event.bsrr v :: es =>
    (if v = 1 <<< SPI_MOSI then [true] else if v = 1 <<< (SPI_MOSI + 16) then [false] else []) ++
      mosiLevels es
  | _ :: es => mosiLevels es

/-- A BSRR store of `v` leaves the select pin alone. -/
def keepsSelect (e : Event) : Prop :=
  ∀ v, e = Event.bsrr v → v.testBit SPI_CS = false ∧ v.testBit (SPI_CS + 16) = false

end SPI_GPIO_main

/-! ## Concrete machines and environments -/

namespace Stm32

/-- A loop-back environment for the byte `0b10110010`: the level on data-in in clock
cycle `k` is bit `7 - k` of the byte, and 640 cycles pass between polls. -/
def mirror178 : Env :=
  { dt := fun _ => 640, idr := fun k => if Nat.testBit 178 (7 - k) then 64 else 0 }

/-- A machine whose running counter is two cycles short of wrapping. -/
def nearWrap : Hw :=
  { DEMCR := 16777216, LAR := 3316436565, CYCCNT := 4294967294, CTRL := 1, AHB4ENR := 0,
    MODER := 0, OTYPER := 0, OSPEEDR := 0, PUPDR := 0, ODR := 0, PRIMASK := false, polls := 0,
    samples := 0, trace := [] }

end Stm32

/-! ## Lemmas: the cycle counter and `wait_until` -/

namespace Stm32

theorem sameButClock_refl (s : Hw) : sameButClock s s := rfl

theorem sameButClock_trans {a b c : Hw} (h1 : sameButClock a b) (h2 : sameButClock b c) :
    sameButClock a c := by
  unfold sameButClock at *
  rw [h2, h1]

theorem sameButClock_rd (env : Env) (s : Hw) : sameButClock s (rd_CYCCNT env s).2 := by
  unfold sameButClock rd_CYCCNT elapse counting
  dsimp only
  split <;> rfl

theorem counting_rd (env : Env) (s : Hw) : counting (rd_CYCCNT env s).2 = counting s := by
  unfold rd_CYCCNT elapse
  dsimp only
  split <;> simp_all [counting]

theorem polls_rd (env : Env) (s : Hw) : (rd_CYCCNT env s).2.polls = s.polls + 1 := by
  unfold rd_CYCCNT elapse
  dsimp only
  split <;> rfl

theorem cyccnt_rd (env : Env) (s : Hw) (hc : counting s = true) :
    (rd_CYCCNT env s).2.CYCCNT = (s.CYCCNT + env.dt s.polls) % 4294967296 := by
  unfold rd_CYCCNT elapse
  have : counting { s with polls := s.polls + 1 } = true := hc
  simp [this]

theorem toInt32_neg_iff (x : Nat) : toInt32 x < 0 ↔ 2147483648 ≤ x % 4294967296 := by
  unfold toInt32
  split <;> omega

end Stm32

namespace UART_GPIO_main
open Stm32

theorem wait_until_spin_same (env : Env) (d : Nat) :
    ∀ (fuel : Nat) (s s' : Hw), wait_until_spin env d fuel s = some s' → sameButClock s s' := by
  intro fuel
  induction fuel with
  | zero => intro s s' h; simp [wait_until_spin] at h
  | succ n ih =>
    intro s s' h
    unfold wait_until_spin at h
    split at h
    · exact sameButClock_trans (sameButClock_rd env s) (ih _ _ h)
    · cases h; exact sameButClock_rd env s

theorem wait_until_spin_counting (env : Env) (d : Nat) :
    ∀ (fuel : Nat) (s s' : Hw), wait_until_spin env d fuel s = some s' →
      counting s' = counting s := by
  intro fuel
  induction fuel with
  | zero => intro s s' h; simp [wait_until_spin] at h
  | succ n ih =>
    intro s s' h
    unfold wait_until_spin at h
    split at h
    · rw [ih _ _ h, counting_rd]
    · cases h; exact counting_rd env s

theorem wait_until_spin_mono (env : Env) (d : Nat) :
    ∀ (fuel fuel' : Nat) (s s' : Hw), wait_until_spin env d fuel s = some s' → fuel ≤ fuel' →
      wait_until_spin env d fuel' s = some s' := by
  intro fuel
  induction fuel with
  | zero => intro _ s s' h; simp [wait_until_spin] at h
  | succ n ih =>
    intro fuel' s s' h hle
    obtain ⟨m, rfl⟩ : ∃ m, fuel' = m + 1 := ⟨fuel' - 1, by omega⟩
    unfold wait_until_spin at h ⊢
    split at h
    · rename_i hneg
      rw [if_pos hneg]
      exact ih _ _ _ h (by omega)
    · rename_i hneg
      rw [if_neg hneg]
      exact h

/-- With a live environment and a running counter the spin loop ends: once the
signed distance to the deadline is at most `m` cycles, `m + 1` polls suffice. -/
theorem wait_until_spin_total (env : Env) (hl : env.live) (d : Nat) :
    ∀ (m fuel : Nat) (s : Hw), counting s = true → m < fuel →
      (sub32 (s.CYCCNT % 4294967296) d < 2147483648 ∨
        4294967296 - sub32 (s.CYCCNT % 4294967296) d ≤ m) →
      ∃ s', wait_until_spin env d fuel s = some s' := by
  intro m
  induction m with
  | zero =>
    intro fuel s _ hf hd
    obtain ⟨n, rfl⟩ : ∃ n, fuel = n + 1 := ⟨fuel - 1, by omega⟩
    have hlt : sub32 (s.CYCCNT % 4294967296) d < 2147483648 := by
      rcases hd with h | h
      · exact h
      · have : sub32 (s.CYCCNT % 4294967296) d < 4294967296 := Nat.mod_lt _ (by norm_num)
        omega
    refine ⟨(rd_CYCCNT env s).2, ?_⟩
    unfold wait_until_spin
    rw [if_neg]
    rw [toInt32_neg_iff]
    have : (rd_CYCCNT env s).1 = s.CYCCNT % 4294967296 := rfl
    rw [this]
    have h2 : sub32 (s.CYCCNT % 4294967296) d % 4294967296 = sub32 (s.CYCCNT % 4294967296) d :=
      Nat.mod_eq_of_lt (Nat.mod_lt _ (by norm_num))
    omega
  | succ k ih =>
    intro fuel s hc hf hd
    obtain ⟨n, rfl⟩ : ∃ n, fuel = n + 1 := ⟨fuel - 1, by omega⟩
    unfold wait_until_spin
    have h1 : (rd_CYCCNT env s).1 = s.CYCCNT % 4294967296 := rfl
    split
    · rename_i hneg
      rw [toInt32_neg_iff, h1] at hneg
      apply ih n _ (by rw [counting_rd]; exact hc) (by omega)
      rw [cyccnt_rd env s hc]
      have hdt := hl s.polls
      unfold sub32 at hneg hd ⊢
      omega
    · exact ⟨_, rfl⟩

end UART_GPIO_main

namespace Stm32

theorem rd_tick (s : Hw) (hc : counting s = true) :
    (rd_CYCCNT tick s).2 =
      { s with CYCCNT := (s.CYCCNT + 1) % 4294967296, polls := s.polls + 1 } := by
  unfold rd_CYCCNT elapse
  have : counting { s with polls := s.polls + 1 } = true := hc
  simp [this, tick]

theorem rd_fst (env : Env) (s : Hw) : (rd_CYCCNT env s).1 = s.CYCCNT % 4294967296 := rfl

end Stm32

namespace UART_GPIO_main
open Stm32

/-- Under the one-cycle-per-poll clock the spin loop returns at poll number
`k = (d - c0) mod 2^32` (counted from zero), provided `k ≤ 2^31`. -/
theorem wait_until_spin_tick (d : Nat) :
    ∀ (k : Nat) (s : Hw), counting s = true → sub32 d s.CYCCNT = k → k ≤ 2147483648 →
      ∀ fuel, k < fuel →
        wait_until_spin tick d fuel s =
          some { s with CYCCNT := (d + 1) % 4294967296, polls := s.polls + k + 1 } := by
  intro k
  induction k with
  | zero =>
    intro s hc hk _ fuel hf
    obtain ⟨n, rfl⟩ : ∃ n, fuel = n + 1 := ⟨fuel - 1, by omega⟩
    unfold wait_until_spin
    rw [if_neg, rd_tick s hc]
    · congr 2
      unfold sub32 at hk
      omega
    · rw [toInt32_neg_iff, rd_fst]
      unfold sub32 at hk ⊢
      omega
  | succ k ih =>
    intro s hc hk hle fuel hf
    obtain ⟨n, rfl⟩ : ∃ n, fuel = n + 1 := ⟨fuel - 1, by omega⟩
    unfold wait_until_spin
    rw [if_pos, rd_tick s hc, ih _ (by simpa [counting] using hc) _ (by omega) n (by omega)]
    · simp only [Hw.mk.injEq, Option.some.injEq, true_and, and_true]
      omega
    · show sub32 d ((s.CYCCNT + 1) % 4294967296) = k
      unfold sub32 at hk ⊢
      omega
    · rw [toInt32_neg_iff, rd_fst]
      unfold sub32 at hk ⊢
      omega

/-- Under the one-cycle-per-poll clock the spin loop does not return with fewer
than `k + 1` polls. -/
theorem wait_until_spin_tick_none (d : Nat) :
    ∀ (fuel : Nat) (s : Hw), counting s = true → sub32 d s.CYCCNT ≤ 2147483648 →
      fuel ≤ sub32 d s.CYCCNT → wait_until_spin tick d fuel s = none := by
  intro fuel
  induction fuel with
  | zero => intro s _ _ _; rfl
  | succ n ih =>
    intro s hc hle hf
    unfold wait_until_spin
    rw [if_pos, rd_tick s hc]
    · apply ih
      · simpa [counting] using hc
      · show sub32 d ((s.CYCCNT + 1) % 4294967296) ≤ 2147483648
        unfold sub32 at hle hf ⊢
        omega
      · show n ≤ sub32 d ((s.CYCCNT + 1) % 4294967296)
        unfold sub32 at hle hf ⊢
        omega
    · rw [toInt32_neg_iff, rd_fst]
      unfold sub32 at hle hf ⊢
      omega

end UART_GPIO_main

/-! ## Lemmas: bit tests and pin writes -/

namespace Stm32

theorem and_shiftLeft_ne_zero (x i : Nat) : (x &&& (1 <<< i) ≠ 0) ↔ x.testBit i = true := by
  constructor
  · intro h
    by_contra hx
    apply h
    apply Nat.eq_of_testBit_eq
    intro j
    simp only [Nat.testBit_and, Nat.zero_testBit, Nat.shiftLeft_eq, Nat.one_mul,
      Nat.testBit_two_pow]
    by_cases hij : i = j
    · subst hij; simp [hx]
    · simp [hij]
  · intro h h0
    have := congrArg (fun y => y.testBit i) h0
    simp [Nat.shiftLeft_eq, Nat.testBit_two_pow, h] at this

theorem tick_live : tick.live := by
  intro k
  simp [tick]

theorem testBit_byte (b i : Nat) (hi : i < 8) : (b % 256).testBit i = b.testBit i := by
  have : (256 : Nat) = 2 ^ 8 := by norm_num
  rw [this, Nat.testBit_mod_two_pow]
  simp [hi]

theorem sameButClock_trace {a b : Hw} (h : sameButClock a b) : b.trace = a.trace := by
  rw [h]

theorem sameButClock_ODR {a b : Hw} (h : sameButClock a b) : b.ODR = a.ODR := by
  rw [h]

theorem sameButClock_PRIMASK {a b : Hw} (h : sameButClock a b) : b.PRIMASK = a.PRIMASK := by
  rw [h]

theorem sameButClock_samples {a b : Hw} (h : sameButClock a b) : b.samples = a.samples := by
  rw [h]

theorem counting_wr_BSRR (v : Nat) (s : Hw) : counting (wr_BSRR v s) = counting s := rfl

end Stm32

/-! ## Lemmas: the UART frame -/

namespace UART_GPIO_main
open Stm32

theorem wait_until_spec {env : Env} {fuel d : Nat} {s s' : Hw}
    (h : wait_until env fuel d s = some s') :
    s'.trace = s.trace ++ [Event.wait_until d] ∧ s'.ODR = s.ODR ∧ s'.PRIMASK = s.PRIMASK ∧
      counting s' = counting s := by
  unfold wait_until at h
  have h1 := wait_until_spin_same env d fuel _ _ h
  have h2 := wait_until_spin_counting env d fuel _ _ h
  exact ⟨sameButClock_trace h1, (sameButClock_ODR h1).trans rfl,
    (sameButClock_PRIMASK h1).trans rfl, h2⟩

theorem wait_until_total (env : Env) (hl : env.live) (fuel d : Nat) (s : Hw)
    (hc : counting s = true) (hf : 2147483648 < fuel) :
    ∃ s', wait_until env fuel d s = some s' := by
  have hb : sub32 (s.CYCCNT % 4294967296) d < 4294967296 := Nat.mod_lt _ (by norm_num)
  exact wait_until_spin_total env hl d 2147483648 fuel
    { s with trace := s.trace ++ [Event.wait_until d] } hc hf (by dsimp only; omega)

theorem tx_bit_eq (b i : Nat) (s : Hw) :
    (if (b % 256) &&& (1 <<< i) ≠ 0 then tx_high s else tx_low s) =
      wr_BSRR (txWord ((b % 256).testBit i)) s := by
  by_cases h : (b % 256).testBit i = true
  · rw [if_pos ((and_shiftLeft_ne_zero _ _).2 h), h]; rfl
  · rw [if_neg (fun hh => h ((and_shiftLeft_ne_zero _ _).1 hh))]
    simp only [Bool.not_eq_true] at h
    rw [h]; rfl

theorem UART_SendByte_bits_spec (env : Env) (SCC fuel b : Nat) :
    ∀ (n i dl : Nat) (s : Hw) (r : Nat × Hw),
      UART_SendByte_bits env SCC fuel b n i dl s = some r →
        r.2.trace = s.trace ++ bitsTrace (BIT_CYCLES SCC) b n i dl ∧
          r.1 = bitsDeadline (BIT_CYCLES SCC) n dl ∧ r.2.PRIMASK = s.PRIMASK ∧
          counting r.2 = counting s := by
  intro n
  induction n with
  | zero =>
    intro i dl s r h
    simp only [UART_SendByte_bits, Option.some.injEq] at h
    subst h
    simp [bitsTrace, bitsDeadline]
  | succ n ih =>
    intro i dl s r h
    rw [UART_SendByte_bits, tx_bit_eq] at h
    split at h
    · exact absurd h (by simp)
    · rename_i s2 hw
      obtain ⟨t1, _, p1, c1⟩ := wait_until_spec hw
      obtain ⟨t2, d2, p2, c2⟩ := ih _ _ _ _ h
      refine ⟨?_, ?_, ?_, ?_⟩
      · rw [t2, t1]; simp [bitsTrace, wr_BSRR]
      · rw [d2]; rfl
      · rw [p2, p1]; rfl
      · rw [c2, c1]; rfl

theorem UART_SendByte_bits_total (env : Env) (hl : env.live) (SCC fuel b : Nat)
    (hf : 2147483648 < fuel) :
    ∀ (n i dl : Nat) (s : Hw), counting s = true →
      ∃ r, UART_SendByte_bits env SCC fuel b n i dl s = some r := by
  intro n
  induction n with
  | zero => intro i dl s _; exact ⟨_, rfl⟩
  | succ n ih =>
    intro i dl s hc
    rw [UART_SendByte_bits, tx_bit_eq]
    obtain ⟨s2, hw⟩ := wait_until_total env hl fuel (add32 dl (BIT_CYCLES SCC))
      (wr_BSRR (txWord ((b % 256).testBit i)) s) hc hf
    rw [hw]
    exact ih _ _ _ (by rw [(wait_until_spec hw).2.2.2]; exact hc)

/-- The complete log of one frame, with the deadlines as the code computes them. -/
theorem UART_SendByte_spec {env : Env} {SCC fuel b : Nat} {s s' : Hw}
    (h : UART_SendByte env SCC fuel b s = some s') :
    s'.trace = s.trace ++
        ([Event.irq_disable, Event.bsrr (txWord false),
            Event.wait_until (add32 (s.CYCCNT % 4294967296) (BIT_CYCLES SCC))] ++
          bitsTrace (BIT_CYCLES SCC) b 8 0 (add32 (s.CYCCNT % 4294967296) (BIT_CYCLES SCC)) ++
          [Event.bsrr (txWord true),
            Event.wait_until (add32 (bitsDeadline (BIT_CYCLES SCC) 8
              (add32 (s.CYCCNT % 4294967296) (BIT_CYCLES SCC))) (BIT_CYCLES SCC)),
            Event.irq_enable]) ∧
      s'.PRIMASK = false ∧ s'.ODR.testBit TX_PIN = true := by
  unfold UART_SendByte at h
  simp only at h
  split at h
  · exact absurd h (by simp)
  · rename_i s1 hw1
    split at h
    · exact absurd h (by simp)
    · rename_i dl2 s2 hb
      split at h
      · exact absurd h (by simp)
      · rename_i s3 hw3
        simp only [Option.some.injEq] at h
        subst h
        obtain ⟨t1, _, _, _⟩ := wait_until_spec hw1
        obtain ⟨t2, d2, _, _⟩ := UART_SendByte_bits_spec env SCC fuel b _ _ _ _ _ hb
        obtain ⟨t3, o3, _, _⟩ := wait_until_spec hw3
        simp only at t2 d2
        refine ⟨?_, rfl, ?_⟩
        · have e1 : (rd_CYCCNT env (tx_low (__disable_irq s))).2.trace =
              s.trace ++ [Event.irq_disable, Event.bsrr (txWord false)] := by
            rw [sameButClock_trace (sameButClock_rd env _)]
            simp [tx_low, __disable_irq, wr_BSRR, txWord]
          have e0 : (rd_CYCCNT env (tx_low (__disable_irq s))).1 = s.CYCCNT % 4294967296 := rfl
          rw [e0] at t1 t2 d2
          show (__enable_irq s3).trace = _
          simp only [__enable_irq, t3, tx_high, wr_BSRR, t2, t1, e1, d2]
          simp [txWord]
        · show s3.ODR.testBit TX_PIN = true
          rw [o3]
          show (wrODR s2.ODR (1 <<< TX_PIN)).testBit TX_PIN = true
          unfold wrODR
          rw [Nat.testBit_or]
          have : Nat.testBit (1 <<< TX_PIN &&& 65535) TX_PIN = true := by decide
          rw [this]
          simp

theorem UART_SendByte_total (env : Env) (hl : env.live) (SCC fuel b : Nat) (s : Hw)
    (hc : counting s = true) (hf : 2147483648 < fuel) :
    ∃ s', UART_SendByte env SCC fuel b s = some s' := by
  unfold UART_SendByte
  simp only
  have c0 : counting (rd_CYCCNT env (tx_low (__disable_irq s))).2 = true := by
    rw [counting_rd]; exact hc
  obtain ⟨s1, hw1⟩ := wait_until_total env hl fuel
    (add32 (rd_CYCCNT env (tx_low (__disable_irq s))).1 (BIT_CYCLES SCC)) _ c0 hf
  rw [hw1]
  simp only
  have c1 : counting s1 = true := by rw [(wait_until_spec hw1).2.2.2]; exact c0
  obtain ⟨r, hb⟩ := UART_SendByte_bits_total env hl SCC fuel b hf 8 0
    (add32 (rd_CYCCNT env (tx_low (__disable_irq s))).1 (BIT_CYCLES SCC)) s1 c1
  rw [hb]
  have c2 : counting r.2 = true := by
    rw [(UART_SendByte_bits_spec env SCC fuel b _ _ _ _ _ hb).2.2.2]; exact c1
  obtain ⟨s3, hw3⟩ := wait_until_total env hl fuel (add32 r.1 (BIT_CYCLES SCC)) (tx_high r.2)
    c2 hf
  obtain ⟨dl2, s2⟩ := r
  simp only at hw3 ⊢
  rw [hw3]
  exact ⟨_, rfl⟩

end UART_GPIO_main

/-! ## Lemmas: the elapsed-time busy wait -/

namespace Stm32

theorem elapsed_spin_same (env : Env) (start cycles : Nat) :
    ∀ (fuel : Nat) (s s' : Hw), elapsed_spin env start cycles fuel s = some s' →
      sameButClock s s' := by
  intro fuel
  induction fuel with
  | zero => intro s s' h; simp [elapsed_spin] at h
  | succ n ih =>
    intro s s' h
    unfold elapsed_spin at h
    split at h
    · exact sameButClock_trans (sameButClock_rd env s) (ih _ _ h)
    · cases h; exact sameButClock_rd env s

theorem elapsed_spin_counting (env : Env) (start cycles : Nat) :
    ∀ (fuel : Nat) (s s' : Hw), elapsed_spin env start cycles fuel s = some s' →
      counting s' = counting s := by
  intro fuel
  induction fuel with
  | zero => intro s s' h; simp [elapsed_spin] at h
  | succ n ih =>
    intro s s' h
    unfold elapsed_spin at h
    split at h
    · rw [ih _ _ h, counting_rd]
    · cases h; exact counting_rd env s

/-- A threshold of `2^32` cycles or more is never reached by the 32-bit elapsed
count: the loop runs out of any fuel, in every environment. -/
theorem elapsed_spin_never (env : Env) (start cycles : Nat) (hc : 4294967296 ≤ cycles) :
    ∀ (fuel : Nat) (s : Hw), elapsed_spin env start cycles fuel s = none := by
  intro fuel
  induction fuel with
  | zero => intro s; rfl
  | succ n ih =>
    intro s
    unfold elapsed_spin
    have : sub32 (rd_CYCCNT env s).1 start < 4294967296 := Nat.mod_lt _ (by norm_num)
    rw [if_pos (by omega)]
    exact ih _

/-- In a live environment with a running counter a threshold of at most `2^31`
cycles is reached: `m + 1` polls suffice when at most `m` cycles are missing. -/
theorem elapsed_spin_total (env : Env) (hl : env.live) (start cycles : Nat)
    (hcy : cycles ≤ 2147483648) :
    ∀ (m fuel : Nat) (s : Hw), counting s = true → m < fuel →
      cycles ≤ sub32 s.CYCCNT start + m →
      ∃ s', elapsed_spin env start cycles fuel s = some s' := by
  intro m
  induction m with
  | zero =>
    intro fuel s _ hf hd
    obtain ⟨n, rfl⟩ : ∃ n, fuel = n + 1 := ⟨fuel - 1, by omega⟩
    refine ⟨(rd_CYCCNT env s).2, ?_⟩
    unfold elapsed_spin
    rw [if_neg]
    rw [rd_fst]
    unfold sub32 at hd ⊢
    omega
  | succ k ih =>
    intro fuel s hc hf hd
    obtain ⟨n, rfl⟩ : ∃ n, fuel = n + 1 := ⟨fuel - 1, by omega⟩
    unfold elapsed_spin
    split
    · rename_i hlt
      rw [rd_fst] at hlt
      apply ih n _ (by rw [counting_rd]; exact hc) (by omega)
      rw [cyccnt_rd env s hc]
      have hdt := hl s.polls
      unfold sub32 at hlt hd ⊢
      omega
    · exact ⟨_, rfl⟩

/-- Under the one-cycle-per-poll clock the loop leaves at poll number
`k = cycles - elapsed` (counted from zero), when `cycles < 2^32`. -/
theorem elapsed_spin_tick (start cycles : Nat) (hcy : cycles < 4294967296) :
    ∀ (k : Nat) (s : Hw), counting s = true → cycles - sub32 s.CYCCNT start = k →
      ∀ fuel, k < fuel →
        elapsed_spin tick start cycles fuel s =
          some { s with CYCCNT := (s.CYCCNT + k + 1) % 4294967296, polls := s.polls + k + 1 } := by
  intro k
  induction k with
  | zero =>
    intro s hc hk fuel hf
    obtain ⟨n, rfl⟩ : ∃ n, fuel = n + 1 := ⟨fuel - 1, by omega⟩
    unfold elapsed_spin
    rw [if_neg, rd_tick s hc]
    rw [rd_fst]
    unfold sub32 at hk ⊢
    omega
  | succ k ih =>
    intro s hc hk fuel hf
    obtain ⟨n, rfl⟩ : ∃ n, fuel = n + 1 := ⟨fuel - 1, by omega⟩
    unfold elapsed_spin
    rw [if_pos, rd_tick s hc, ih _ (by simpa [counting] using hc) _ n (by omega)]
    · simp only [Hw.mk.injEq, Option.some.injEq, true_and, and_true]
      omega
    · show cycles - sub32 ((s.CYCCNT + 1) % 4294967296) start = k
      unfold sub32 at hk ⊢
      omega
    · rw [rd_fst]
      unfold sub32 at hk ⊢
      omega

/-- Under the one-cycle-per-poll clock the loop does not leave with `k` polls or
fewer. -/
theorem elapsed_spin_tick_none (start cycles : Nat) (hcy : cycles < 4294967296) :
    ∀ (fuel : Nat) (s : Hw), counting s = true → fuel ≤ cycles - sub32 s.CYCCNT start →
      elapsed_spin tick start cycles fuel s = none := by
  intro fuel
  induction fuel with
  | zero => intro s _ _; rfl
  | succ n ih =>
    intro s hc hf
    unfold elapsed_spin
    rw [if_pos, rd_tick s hc]
    · apply ih
      · simpa [counting] using hc
      · show n ≤ cycles - sub32 ((s.CYCCNT + 1) % 4294967296) start
        unfold sub32 at hf ⊢
        omega
    · rw [rd_fst]
      unfold sub32 at hf ⊢
      omega

end Stm32

/-! ## Lemmas: the SPI transfer -/

namespace Stm32

theorem odrAfter_append (odr : Nat) (l1 l2 : List Event) :
    odrAfter odr (l1 ++ l2) = odrAfter (odrAfter odr l1) l2 := by
  induction l1 generalizing odr with
  | nil => rfl
  | cons e es ih =>
    cases e <;> simp [odrAfter, ih]

theorem testBit_wrODR (odr v q : Nat) (hq : q < 16) :
    (wrODR odr v).testBit q = ((odr.testBit q && !v.testBit (16 + q)) || v.testBit q) := by
  have e : (65535 : Nat).testBit q = true := by
    have : (65535 : Nat) = 2 ^ 16 - 1 := by norm_num
    rw [this, Nat.testBit_two_pow_sub_one]
    simp [hq]
  simp [wrODR, Nat.testBit_or, Nat.testBit_and, Nat.testBit_xor, Nat.testBit_shiftRight, e]

set_option maxRecDepth 100000 in
theorem or_one_of_even : ∀ y, y < 256 → y % 2 = 0 → y ||| 1 = y + 1 := by
  decide

end Stm32

namespace SPI_GPIO_main
open Stm32

theorem delay_us_spec {env : Env} {fuel us : Nat} {s s' : Hw}
    (h : delay_us env fuel us s = some s') :
    s'.trace = s.trace ++ [Event.delay_us us] ∧ s'.ODR = s.ODR ∧ s'.samples = s.samples ∧
      counting s' = counting s := by
  unfold delay_us at h
  have h1 := sameButClock_trans (sameButClock_rd env _) (elapsed_spin_same env _ _ fuel _ _ h)
  have h2 := elapsed_spin_counting env _ _ fuel _ _ h
  rw [counting_rd] at h2
  exact ⟨(sameButClock_trace h1).trans rfl, (sameButClock_ODR h1).trans rfl,
    (sameButClock_samples h1).trans rfl, h2⟩

theorem delay_us_total (env : Env) (hl : env.live) (fuel us : Nat) (s : Hw)
    (hc : counting s = true) (hcy : delay_us_cycles us ≤ 2147483648)
    (hf : delay_us_cycles us < fuel) :
    ∃ s', delay_us env fuel us s = some s' := by
  unfold delay_us
  exact elapsed_spin_total env hl _ _ hcy (delay_us_cycles us) fuel _
    (by rw [counting_rd]; exact hc) hf (by omega)

theorem mosi_bit_eq (data i : Nat) (s : Hw) :
    (if (data % 256) &&& (1 <<< i) ≠ 0 then mosi_high s else mosi_low s) =
      wr_BSRR (mosiWord ((data % 256).testBit i)) s := by
  by_cases h : (data % 256).testBit i = true
  · rw [if_pos ((and_shiftLeft_ne_zero _ _).2 h), h]; rfl
  · rw [if_neg (fun hh => h ((and_shiftLeft_ne_zero _ _).1 hh))]
    simp only [Bool.not_eq_true] at h
    rw [h]; rfl

theorem rx_step_eq (v rx : Nat) :
    (if v &&& (1 <<< SPI_MISO) ≠ 0 then ((rx <<< 1) % 256) ||| 1 else (rx <<< 1) % 256) =
      (2 * rx) % 256 + (misoLevel v).toNat := by
  have e : rx <<< 1 = 2 * rx := by rw [Nat.shiftLeft_eq]; omega
  rw [e]
  by_cases h : v.testBit SPI_MISO = true
  · rw [if_pos ((and_shiftLeft_ne_zero _ _).2 h)]
    unfold misoLevel
    rw [h, or_one_of_even _ (Nat.mod_lt _ (by norm_num)) (by omega)]
    rfl
  · rw [if_neg (fun hh => h ((and_shiftLeft_ne_zero _ _).1 hh))]
    simp only [Bool.not_eq_true] at h
    unfold misoLevel
    rw [h]
    rfl

theorem SPI_Transfer_bits_spec (env : Env) (fuel data : Nat) :
    ∀ (i rx : Nat) (s : Hw) (r : Nat × Hw),
      SPI_Transfer_bits env fuel data i rx s = some r →
        r.2.trace = s.trace ++ cyclesTrace env data i s.samples ∧
          r.1 = shiftIn env i rx s.samples ∧
          r.2.ODR = odrAfter s.ODR (cyclesTrace env data i s.samples) ∧
          r.2.samples = s.samples + i ∧ counting r.2 = counting s := by
  intro i
  induction i with
  | zero =>
    intro rx s r h
    simp only [SPI_Transfer_bits, Option.some.injEq] at h
    subst h
    simp [cyclesTrace, shiftIn, odrAfter]
  | succ i ih =>
    intro rx s r h
    rw [SPI_Transfer_bits, mosi_bit_eq] at h
    split at h
    · exact absurd h (by simp)
    · rename_i s1 hd1
      split at h
      · exact absurd h (by simp)
      · rename_i s2 hd2
        rw [rx_step_eq] at h
        obtain ⟨t1, o1, m1, c1⟩ := delay_us_spec hd1
        obtain ⟨t2, o2, m2, c2⟩ := delay_us_spec hd2
        obtain ⟨t3, x3, o3, m3, c3⟩ := ih _ _ _ h
        have m1' : s1.samples = s.samples := m1
        have m2' : s2.samples = s.samples + 1 := by rw [m2]; show s1.samples + 1 = _; rw [m1']
        have v1 : (rd_IDR env s1).1 = env.idr s.samples := by
          show env.idr s1.samples = _; rw [m1']
        have t2' : s2.trace = s.trace ++ [Event.bsrr (mosiWord ((data % 256).testBit i)),
            Event.bsrr (1 <<< SPI_SCK), Event.delay_us 10, Event.idr (env.idr s.samples),
            Event.bsrr (1 <<< (SPI_SCK + 16)), Event.delay_us 10] := by
          rw [t2]
          show (s1.trace ++ [Event.idr (env.idr s1.samples)] ++
            [Event.bsrr (1 <<< (SPI_SCK + 16))]) ++ [Event.delay_us 10] = _
          rw [t1, m1']
          show ((s.trace ++ [Event.bsrr (mosiWord ((data % 256).testBit i))] ++
            [Event.bsrr (1 <<< SPI_SCK)]) ++ [Event.delay_us 10] ++ _ ++ _) ++ _ = _
          simp
        have o2' : s2.ODR = odrAfter s.ODR [Event.bsrr (mosiWord ((data % 256).testBit i)),
            Event.bsrr (1 <<< SPI_SCK), Event.delay_us 10, Event.idr (env.idr s.samples),
            Event.bsrr (1 <<< (SPI_SCK + 16)), Event.delay_us 10] := by
          rw [o2]
          show (s1.ODR &&& _) ||| _ = _
          rw [o1]
          rfl
        refine ⟨?_, ?_, ?_, ?_, ?_⟩
        · rw [t3, t2', m2']
          simp [cyclesTrace]
        · rw [x3, v1, m2']
          rfl
        · rw [o3, o2', m2']
          rw [← odrAfter_append]
          simp [cyclesTrace]
        · rw [m3, m2']; omega
        · rw [c3, c2]
          show counting s1 = _
          rw [c1]
          rfl

theorem SPI_Transfer_bits_total (env : Env) (hl : env.live) (fuel data : Nat)
    (hf : 640 < fuel) :
    ∀ (i rx : Nat) (s : Hw), counting s = true →
      ∃ r, SPI_Transfer_bits env fuel data i rx s = some r := by
  have hcy : delay_us_cycles 10 = 640 := by decide
  intro i
  induction i with
  | zero => intro rx s _; exact ⟨_, rfl⟩
  | succ i ih =>
    intro rx s hc
    rw [SPI_Transfer_bits, mosi_bit_eq]
    obtain ⟨s1, hd1⟩ := delay_us_total env hl fuel 10
      (sck_high (wr_BSRR (mosiWord ((data % 256).testBit i)) s)) hc (by rw [hcy]; norm_num)
      (by rw [hcy]; exact hf)
    rw [hd1]
    simp only
    have c1 : counting s1 = true := by rw [(delay_us_spec hd1).2.2.2]; exact hc
    obtain ⟨s2, hd2⟩ := delay_us_total env hl fuel 10 (sck_low (rd_IDR env s1).2) c1
      (by rw [hcy]; norm_num) (by rw [hcy]; exact hf)
    rw [hd2]
    simp only
    exact ih _ _ (by rw [(delay_us_spec hd2).2.2.2]; exact c1)

/-- The complete log of one transfer, the returned byte and the final output latch. -/
theorem SPI_Transfer_spec {env : Env} {fuel data : Nat} {s : Hw} {r : Nat × Hw}
    (h : SPI_Transfer env fuel data s = some r) :
    r.2.trace = s.trace ++
        (Event.bsrr (1 <<< (SPI_CS + 16)) :: cyclesTrace env data 8 s.samples ++
          [Event.bsrr (1 <<< SPI_CS)]) ∧
      r.1 = shiftIn env 8 0 s.samples ∧
      r.2.ODR = odrAfter s.ODR
        (Event.bsrr (1 <<< (SPI_CS + 16)) :: cyclesTrace env data 8 s.samples ++
          [Event.bsrr (1 <<< SPI_CS)]) ∧
      r.2.samples = s.samples + 8 := by
  unfold SPI_Transfer at h
  split at h
  · exact absurd h (by simp)
  · rename_i rx s1 hb
    simp only [Option.some.injEq] at h
    subst h
    obtain ⟨t1, x1, o1, m1, _⟩ := SPI_Transfer_bits_spec env fuel data _ _ _ _ hb
    have e : (cs_low s).samples = s.samples := rfl
    rw [e] at t1 x1 o1 m1
    simp only at t1 x1 o1 m1
    refine ⟨?_, x1, ?_, m1⟩
    · show s1.trace ++ [Event.bsrr (1 <<< SPI_CS)] = _
      rw [t1]
      show (s.trace ++ [Event.bsrr (1 <<< (SPI_CS + 16))]) ++ _ ++ _ = _
      simp
    · show (s1.ODR &&& _) ||| _ = _
      rw [o1]
      have : (Event.bsrr (1 <<< (SPI_CS + 16)) :: cyclesTrace env data 8 s.samples ++
          [Event.bsrr (1 <<< SPI_CS)]) =
          [Event.bsrr (1 <<< (SPI_CS + 16))] ++ cyclesTrace env data 8 s.samples ++
            [Event.bsrr (1 <<< SPI_CS)] := by simp
      rw [this, odrAfter_append, odrAfter_append]
      rfl

theorem SPI_Transfer_total (env : Env) (hl : env.live) (fuel data : Nat) (s : Hw)
    (hc : counting s = true) (hf : 640 < fuel) :
    ∃ r, SPI_Transfer env fuel data s = some r := by
  unfold SPI_Transfer
  obtain ⟨r, hb⟩ := SPI_Transfer_bits_total env hl fuel data hf 8 0 (cs_low s) hc
  rw [hb]
  exact ⟨_, rfl⟩

end SPI_GPIO_main

namespace SPI_GPIO_main
open Stm32

theorem cyclesTrace_length (env : Env) (data : Nat) :
    ∀ (i n : Nat), (cyclesTrace env data i n).length = 6 * i := by
  intro i
  induction i with
  | zero => intro n; rfl
  | succ i ih => intro n; simp [cyclesTrace, ih]; omega

theorem mosiWord_keeps (l : Bool) :
    (mosiWord l).testBit SPI_CS = false ∧ (mosiWord l).testBit (SPI_CS + 16) = false := by
  cases l <;> decide

theorem cyclesTrace_keepsSelect (env : Env) (data : Nat) :
    ∀ (i n : Nat) (e : Event), e ∈ cyclesTrace env data i n → keepsSelect e := by
  intro i
  induction i with
  | zero => intro n e h; simp [cyclesTrace] at h
  | succ i ih =>
    intro n e h
    simp only [cyclesTrace, List.mem_cons] at h
    rcases h with h | h | h | h | h | h | h
    · subst h; intro v hv; cases hv; exact mosiWord_keeps _
    · subst h; intro v hv; cases hv; decide
    · subst h; intro v hv; cases hv
    · subst h; intro v hv; cases hv
    · subst h; intro v hv; cases hv; decide
    · subst h; intro v hv; cases hv
    · exact ih _ _ h

theorem cyclesTrace_count_rise (env : Env) (data : Nat) :
    ∀ (i n : Nat), (cyclesTrace env data i n).count (Event.bsrr (1 <<< SPI_SCK)) = i := by
  intro i
  induction i with
  | zero => intro n; rfl
  | succ i ih =>
    intro n
    have hm : ∀ l : Bool, mosiWord l ≠ 1 <<< SPI_SCK := by intro l; cases l <;> decide
    have hf : (1 <<< (SPI_SCK + 16) : Nat) ≠ 1 <<< SPI_SCK := by decide
    simp [cyclesTrace, List.count_cons, ih, hm, hf]

theorem cyclesTrace_count_fall (env : Env) (data : Nat) :
    ∀ (i n : Nat), (cyclesTrace env data i n).count (Event.bsrr (1 <<< (SPI_SCK + 16))) = i := by
  intro i
  induction i with
  | zero => intro n; rfl
  | succ i ih =>
    intro n
    have hm : ∀ l : Bool, mosiWord l ≠ 1 <<< (SPI_SCK + 16) := by intro l; cases l <;> decide
    have hf : (1 <<< SPI_SCK : Nat) ≠ 1 <<< (SPI_SCK + 16) := by decide
    simp [cyclesTrace, List.count_cons, ih, hm, hf]

theorem cyclesTrace_count_delay (env : Env) (data : Nat) :
    ∀ (i n : Nat), (cyclesTrace env data i n).count (Event.delay_us 10) = 2 * i := by
  intro i
  induction i with
  | zero => intro n; rfl
  | succ i ih =>
    intro n
    simp [cyclesTrace, List.count_cons, ih]
    omega

theorem wr_keeps_select (odr v : Nat) (h4 : v.testBit SPI_CS = false)
    (h20 : v.testBit (SPI_CS + 16) = false) :
    (wrODR odr v).testBit SPI_CS = odr.testBit SPI_CS := by
  have h20' : v.testBit (16 + SPI_CS) = false := by rw [Nat.add_comm]; exact h20
  rw [testBit_wrODR odr v SPI_CS (by decide), h4, h20']
  simp

theorem odrAfter_keepsSelect :
    ∀ (l : List Event) (odr : Nat), (∀ e ∈ l, keepsSelect e) →
      (odrAfter odr l).testBit SPI_CS = odr.testBit SPI_CS := by
  intro l
  induction l with
  | nil => intro odr _; rfl
  | cons e es ih =>
    intro odr h
    have hes : ∀ x ∈ es, keepsSelect x := fun x hx => h x (List.mem_cons_of_mem _ hx)
    cases e with
    | bsrr v =>
      have hv := h (Event.bsrr v) (List.mem_cons_self _ _) v rfl
      rw [odrAfter, ih _ hes, wr_keeps_select odr v hv.1 hv.2]
    | irq_disable => exact ih _ hes
    | irq_enable => exact ih _ hes
    | wait_until d => exact ih _ hes
    | delay_us us => exact ih _ hes
    | idr v => exact ih _ hes

/-- After the select-low store and any part of a body that leaves the select pin
alone, the select pin is low. -/
theorem select_low_during (odr : Nat) (body : List Event) (hb : ∀ e ∈ body, keepsSelect e)
    (n : Nat) (h1 : 1 ≤ n) (h2 : n ≤ body.length + 1) :
    (odrAfter odr ((Event.bsrr (1 <<< (SPI_CS + 16)) :: body ++
      [Event.bsrr (1 <<< SPI_CS)]).take n)).testBit SPI_CS = false := by
  obtain ⟨m, rfl⟩ : ∃ m, n = m + 1 := ⟨n - 1, by omega⟩
  have hm : m ≤ body.length := by omega
  rw [List.cons_append, List.take_succ_cons, List.take_append_of_le_length hm, odrAfter,
    odrAfter_keepsSelect _ _ (fun e he => hb e (List.mem_of_mem_take he))]
  have e1 : (1 <<< (SPI_CS + 16) : Nat).testBit SPI_CS = false := by decide
  have e2 : (1 <<< (SPI_CS + 16) : Nat).testBit (16 + SPI_CS) = true := by decide
  rw [testBit_wrODR _ _ SPI_CS (by decide), e1, e2]
  simp

end SPI_GPIO_main


namespace SPI_GPIO_main
open Stm32

/-- The log of one transfer written out event by event. -/
theorem SPI_Transfer_log {env : Env} {fuel data : Nat} {s : Hw} {r : Nat × Hw}
    (h : SPI_Transfer env fuel data s = some r) :
    r.2.trace = s.trace ++
        [Event.bsrr (1 <<< (SPI_CS + 16)),
          Event.bsrr (mosiWord (data.testBit 7)),
          Event.bsrr (1 <<< SPI_SCK),
          Event.delay_us 10,
          Event.idr (env.idr s.samples),
          Event.bsrr (1 <<< (SPI_SCK + 16)),
          Event.delay_us 10,
          Event.bsrr (mosiWord (data.testBit 6)),
          Event.bsrr (1 <<< SPI_SCK),
          Event.delay_us 10,
          Event.idr (env.idr (s.samples + 1)),
          Event.bsrr (1 <<< (SPI_SCK + 16)),
          Event.delay_us 10,
          Event.bsrr (mosiWord (data.testBit 5)),
          Event.bsrr (1 <<< SPI_SCK),
          Event.delay_us 10,
          Event.idr (env.idr (s.samples + 2)),
          Event.bsrr (1 <<< (SPI_SCK + 16)),
          Event.delay_us 10,
          Event.bsrr (mosiWord (data.testBit 4)),
          Event.bsrr (1 <<< SPI_SCK),
          Event.delay_us 10,
          Event.idr (env.idr (s.samples + 3)),
          Event.bsrr (1 <<< (SPI_SCK + 16)),
          Event.delay_us 10,
          Event.bsrr (mosiWord (data.testBit 3)),
          Event.bsrr (1 <<< SPI_SCK),
          Event.delay_us 10,
          Event.idr (env.idr (s.samples + 4)),
          Event.bsrr (1 <<< (SPI_SCK + 16)),
          Event.delay_us 10,
          Event.bsrr (mosiWord (data.testBit 2)),
          Event.bsrr (1 <<< SPI_SCK),
          Event.delay_us 10,
          Event.idr (env.idr (s.samples + 5)),
          Event.bsrr (1 <<< (SPI_SCK + 16)),
          Event.delay_us 10,
          Event.bsrr (mosiWord (data.testBit 1)),
          Event.bsrr (1 <<< SPI_SCK),
          Event.delay_us 10,
          Event.idr (env.idr (s.samples + 6)),
          Event.bsrr (1 <<< (SPI_SCK + 16)),
          Event.delay_us 10,
          Event.bsrr (mosiWord (data.testBit 0)),
          Event.bsrr (1 <<< SPI_SCK),
          Event.delay_us 10,
          Event.idr (env.idr (s.samples + 7)),
          Event.bsrr (1 <<< (SPI_SCK + 16)),
          Event.delay_us 10,
          Event.bsrr (1 <<< SPI_CS)] := by
  rw [(SPI_Transfer_spec h).1]
  simp only [cyclesTrace, Nat.add_assoc, Nat.reduceAdd,
    testBit_byte data _ (by norm_num : (0 : Nat) < 8), testBit_byte data _ (by norm_num : (1 : Nat) < 8),
    testBit_byte data _ (by norm_num : (2 : Nat) < 8), testBit_byte data _ (by norm_num : (3 : Nat) < 8),
    testBit_byte data _ (by norm_num : (4 : Nat) < 8), testBit_byte data _ (by norm_num : (5 : Nat) < 8),
    testBit_byte data _ (by norm_num : (6 : Nat) < 8), testBit_byte data _ (by norm_num : (7 : Nat) < 8),
    List.cons_append, List.nil_append]

theorem shiftIn_eight (env : Env) (n : Nat) :
    shiftIn env 8 0 n =
      128 * (misoLevel (env.idr n)).toNat + 64 * (misoLevel (env.idr (n + 1))).toNat +
        32 * (misoLevel (env.idr (n + 2))).toNat + 16 * (misoLevel (env.idr (n + 3))).toNat +
        8 * (misoLevel (env.idr (n + 4))).toNat + 4 * (misoLevel (env.idr (n + 5))).toNat +
        2 * (misoLevel (env.idr (n + 6))).toNat + (misoLevel (env.idr (n + 7))).toNat := by
  have hx : ∀ v, (misoLevel v).toNat ≤ 1 := fun v => Bool.toNat_le _
  have h0 := hx (env.idr n)
  have h1 := hx (env.idr (n + 1))
  have h2 := hx (env.idr (n + 2))
  have h3 := hx (env.idr (n + 3))
  have h4 := hx (env.idr (n + 4))
  have h5 := hx (env.idr (n + 5))
  have h6 := hx (env.idr (n + 6))
  have h7 := hx (env.idr (n + 7))
  simp only [shiftIn, Nat.add_assoc, Nat.reduceAdd]
  omega

set_option maxRecDepth 100000 in
theorem byte_of_bits : ∀ d, d < 256 →
    128 * (d.testBit 7).toNat + 64 * (d.testBit 6).toNat + 32 * (d.testBit 5).toNat +
      16 * (d.testBit 4).toNat + 8 * (d.testBit 3).toNat + 4 * (d.testBit 2).toNat +
      2 * (d.testBit 1).toNat + (d.testBit 0).toNat = d := by
  decide

theorem mosiLevels_mosi (l : Bool) (es : List Event) :
    mosiLevels (Event.bsrr (mosiWord l) :: es) = l :: mosiLevels es := by
  cases l <;> rfl

theorem mosiLevels_sck_high (es : List Event) :
    mosiLevels (Event.bsrr (1 <<< SPI_SCK) :: es) = mosiLevels es := rfl

theorem mosiLevels_sck_low (es : List Event) :
    mosiLevels (Event.bsrr (1 <<< (SPI_SCK + 16)) :: es) = mosiLevels es := rfl

theorem mosiLevels_cs_high (es : List Event) :
    mosiLevels (Event.bsrr (1 <<< SPI_CS) :: es) = mosiLevels es := rfl

theorem mosiLevels_cs_low (es : List Event) :
    mosiLevels (Event.bsrr (1 <<< (SPI_CS + 16)) :: es) = mosiLevels es := rfl

theorem mosiLevels_delay (us : Nat) (es : List Event) :
    mosiLevels (Event.delay_us us :: es) = mosiLevels es := rfl

theorem mosiLevels_idr (v : Nat) (es : List Event) :
    mosiLevels (Event.idr v :: es) = mosiLevels es := rfl

theorem mosiLevels_nil : mosiLevels [] = [] := rfl

end SPI_GPIO_main

namespace SPI_GPIO_main
open Stm32

theorem odrAfter_cycle (env : Env) (data odr i n : Nat) :
    odrAfter odr (cyclesTrace env data (i + 1) n) =
      odrAfter (wrODR (wrODR (wrODR odr (mosiWord ((data % 256).testBit i))) (1 <<< SPI_SCK))
        (1 <<< (SPI_SCK + 16))) (cyclesTrace env data i (n + 1)) := rfl

/-- After at least one clock cycle the clock pin is low. -/
theorem clock_low_after_cycles (env : Env) (data : Nat) :
    ∀ (i n odr : Nat), (odrAfter odr (cyclesTrace env data (i + 1) n)).testBit SPI_SCK = false := by
  intro i
  induction i with
  | zero =>
    intro n odr
    rw [odrAfter_cycle]
    show (wrODR _ (1 <<< (SPI_SCK + 16))).testBit SPI_SCK = false
    have e1 : (1 <<< (SPI_SCK + 16) : Nat).testBit SPI_SCK = false := by decide
    have e2 : (1 <<< (SPI_SCK + 16) : Nat).testBit (16 + SPI_SCK) = true := by decide
    rw [testBit_wrODR _ _ SPI_SCK (by decide), e1, e2]
    simp
  | succ i ih =>
    intro n odr
    rw [odrAfter_cycle]
    exact ih _ _

theorem GPIO_Init_SPI_pins (s0 : Hw) :
    (GPIO_Init_SPI s0).ODR.testBit SPI_CS = true ∧
      (GPIO_Init_SPI s0).ODR.testBit SPI_SCK = false := by
  have e : (GPIO_Init_SPI s0).ODR =
      wrODR (wrODR (wrODR s0.ODR (1 <<< (SPI_SCK + 16))) (1 <<< (SPI_MOSI + 16)))
        (1 <<< SPI_CS) := rfl
  rw [e]
  constructor
  · have e1 : (1 <<< SPI_CS : Nat).testBit SPI_CS = true := by decide
    rw [testBit_wrODR _ _ SPI_CS (by decide), e1]
    simp
  · have e1 : (1 <<< SPI_CS : Nat).testBit SPI_SCK = false := by decide
    have e2 : (1 <<< SPI_CS : Nat).testBit (16 + SPI_SCK) = false := by decide
    have e3 : (1 <<< (SPI_MOSI + 16) : Nat).testBit SPI_SCK = false := by decide
    have e4 : (1 <<< (SPI_MOSI + 16) : Nat).testBit (16 + SPI_SCK) = false := by decide
    have e5 : (1 <<< (SPI_SCK + 16) : Nat).testBit SPI_SCK = false := by decide
    have e6 : (1 <<< (SPI_SCK + 16) : Nat).testBit (16 + SPI_SCK) = true := by decide
    rw [testBit_wrODR _ _ SPI_SCK (by decide), testBit_wrODR _ _ SPI_SCK (by decide),
      testBit_wrODR _ _ SPI_SCK (by decide), e1, e2, e3, e4, e5, e6]
    simp

theorem counting_GPIO_Init_SPI (s0 : Hw) : counting (GPIO_Init_SPI s0) = counting s0 := rfl

end SPI_GPIO_main

namespace Stm32

theorem mirror178_live : mirror178.live := by
  intro k
  exact ⟨by norm_num [mirror178], by norm_num [mirror178]⟩

theorem sub32_mod_left (a b : Nat) : sub32 (a % 4294967296) b = sub32 a b := by
  unfold sub32
  rw [Nat.mod_mod]

end Stm32

namespace Stm32

/-- The loop is left only at a poll that reads an elapsed count of at least `cycles`. -/
theorem elapsed_spin_exit (env : Env) (start cycles : Nat) :
    ∀ (fuel : Nat) (s s' : Hw), elapsed_spin env start cycles fuel s = some s' →
      ∃ s1, s' = (rd_CYCCNT env s1).2 ∧ cycles ≤ sub32 (rd_CYCCNT env s1).1 start := by
  intro fuel
  induction fuel with
  | zero => intro s s' h; simp [elapsed_spin] at h
  | succ n ih =>
    intro s s' h
    unfold elapsed_spin at h
    split at h
    · exact ih _ _ h
    · rename_i hge
      cases h
      exact ⟨s, rfl, by omega⟩

end Stm32

/-! ## The claims -/

namespace UART_GPIO_main
open Stm32

theorem add32_first (t B : Nat) :
    add32 (t % 4294967296) B = (t + 1 * B) % 4294967296 := by
  unfold add32
  omega

/-- The log of one frame written out event by event, the deadlines in closed form. -/
theorem UART_SendByte_log {env : Env} {SCC fuel b : Nat} {s s' : Hw}
    (h : UART_SendByte env SCC fuel b s = some s') :
    s'.trace = s.trace ++
        [Event.irq_disable,
          Event.bsrr (txWord false),
          Event.wait_until ((s.CYCCNT + 1 * BIT_CYCLES SCC) % 4294967296),
          Event.bsrr (txWord (b.testBit 0)),
          Event.wait_until ((s.CYCCNT + 2 * BIT_CYCLES SCC) % 4294967296),
          Event.bsrr (txWord (b.testBit 1)),
          Event.wait_until ((s.CYCCNT + 3 * BIT_CYCLES SCC) % 4294967296),
          Event.bsrr (txWord (b.testBit 2)),
          Event.wait_until ((s.CYCCNT + 4 * BIT_CYCLES SCC) % 4294967296),
          Event.bsrr (txWord (b.testBit 3)),
          Event.wait_until ((s.CYCCNT + 5 * BIT_CYCLES SCC) % 4294967296),
          Event.bsrr (txWord (b.testBit 4)),
          Event.wait_until ((s.CYCCNT + 6 * BIT_CYCLES SCC) % 4294967296),
          Event.bsrr (txWord (b.testBit 5)),
          Event.wait_until ((s.CYCCNT + 7 * BIT_CYCLES SCC) % 4294967296),
          Event.bsrr (txWord (b.testBit 6)),
          Event.wait_until ((s.CYCCNT + 8 * BIT_CYCLES SCC) % 4294967296),
          Event.bsrr (txWord (b.testBit 7)),
          Event.wait_until ((s.CYCCNT + 9 * BIT_CYCLES SCC) % 4294967296),
          Event.bsrr (txWord true),
          Event.wait_until ((s.CYCCNT + 10 * BIT_CYCLES SCC) % 4294967296),
          Event.irq_enable] := by
  have ht := (UART_SendByte_spec h).1
  rw [ht]
  simp only [bitsTrace, bitsDeadline, add32_first, Nat.reduceAdd,
    testBit_byte b _ (by norm_num : (0 : Nat) < 8), testBit_byte b _ (by norm_num : (1 : Nat) < 8),
    testBit_byte b _ (by norm_num : (2 : Nat) < 8), testBit_byte b _ (by norm_num : (3 : Nat) < 8),
    testBit_byte b _ (by norm_num : (4 : Nat) < 8), testBit_byte b _ (by norm_num : (5 : Nat) < 8),
    testBit_byte b _ (by norm_num : (6 : Nat) < 8), testBit_byte b _ (by norm_num : (7 : Nat) < 8),
    List.cons_append, List.nil_append]
  ring_nf

/-- C1: for every byte `b`, every environment and every start state, a call of
`UART_SendByte` that returns has appended to the log exactly: interrupts off; ten
(BSRR store, `wait_until`) pairs driving low, bit 0 .. bit 7 of `b`, high; interrupts
on.  It leaves interrupts enabled and the TX pin high.  With a running counter in a
live environment the call returns.  For `b = 0x55` the levels are 0,1,0,1,0,1,0,1,0,1. -/
theorem UART_SendByte_frame (env : Env) (SCC fuel b : Nat) (s : Hw) :
    (∀ s', UART_SendByte env SCC fuel b s = some s' →
      s'.trace = s.trace ++
        [Event.irq_disable,
          Event.bsrr (txWord false),
          Event.wait_until ((s.CYCCNT + 1 * BIT_CYCLES SCC) % 4294967296),
          Event.bsrr (txWord (b.testBit 0)),
          Event.wait_until ((s.CYCCNT + 2 * BIT_CYCLES SCC) % 4294967296),
          Event.bsrr (txWord (b.testBit 1)),
          Event.wait_until ((s.CYCCNT + 3 * BIT_CYCLES SCC) % 4294967296),
          Event.bsrr (txWord (b.testBit 2)),
          Event.wait_until ((s.CYCCNT + 4 * BIT_CYCLES SCC) % 4294967296),
          Event.bsrr (txWord (b.testBit 3)),
          Event.wait_until ((s.CYCCNT + 5 * BIT_CYCLES SCC) % 4294967296),
          Event.bsrr (txWord (b.testBit 4)),
          Event.wait_until ((s.CYCCNT + 6 * BIT_CYCLES SCC) % 4294967296),
          Event.bsrr (txWord (b.testBit 5)),
          Event.wait_until ((s.CYCCNT + 7 * BIT_CYCLES SCC) % 4294967296),
          Event.bsrr (txWord (b.testBit 6)),
          Event.wait_until ((s.CYCCNT + 8 * BIT_CYCLES SCC) % 4294967296),
          Event.bsrr (txWord (b.testBit 7)),
          Event.wait_until ((s.CYCCNT + 9 * BIT_CYCLES SCC) % 4294967296),
          Event.bsrr (txWord true),
          Event.wait_until ((s.CYCCNT + 10 * BIT_CYCLES SCC) % 4294967296),
          Event.irq_enable] ∧
      s'.PRIMASK = false ∧ s'.ODR.testBit TX_PIN = true ∧
      (b = 85 → txLevels (s'.trace.drop s.trace.length) =
        [false, true, false, true, false, true, false, true, false, true])) ∧
    (env.live → counting s = true → 2147483648 < fuel →
      ∃ s', UART_SendByte env SCC fuel b s = some s') := by
  refine ⟨?_, fun hl hc hf => UART_SendByte_total env hl SCC fuel b s hc hf⟩
  intro s' h
  obtain ⟨ht, hp, ho⟩ := UART_SendByte_spec h
  have key := UART_SendByte_log h
  refine ⟨key, hp, ho, ?_⟩
  intro hb
  subst hb
  rw [key, List.drop_left]
  rfl

/-- Witness for C1: the frame of `0x55` at three cycles per bit, from a freshly
initialised counter under the one-cycle-per-poll clock. -/
theorem UART_SendByte_frame_witness :
    ∃ s', UART_SendByte tick 28800 10 85 (DWT_Init reset) = some s' ∧
      txLevels (s'.trace.drop (DWT_Init reset).trace.length) =
        [false, true, false, true, false, true, false, true, false, true] ∧
      ∃ s2, UART_SendByte tick 28800 2147483649 85 (DWT_Init reset) = some s2 :=
  ⟨_, rfl, ((UART_SendByte_frame tick 28800 10 85 (DWT_Init reset)).1 _ rfl).2.2.2 rfl,
    (UART_SendByte_frame tick 28800 2147483649 85 (DWT_Init reset)).2 tick_live (by decide)
      (by decide)⟩

end UART_GPIO_main

namespace SPI_GPIO_main
open Stm32

/-- C2: for every byte sent, every environment and every start state, the byte a
returning `SPI_Transfer` yields is the MSB-first accumulation of the eight data-in
levels it read, `sum s_k * 2^(7-k)`; these are the eight input words logged by the
call; the result is the same whatever byte is sent; and when the level read in cycle
`k` equals bit `7 - k` of the byte sent (data-in mirrors data-out) the byte itself
comes back.  With a running counter in a live environment the call returns. -/
theorem SPI_Transfer_result (env : Env) (fuel data : Nat) (s : Hw) :
    (∀ rx s', SPI_Transfer env fuel data s = some (rx, s') →
      rx = 128 * (misoLevel (env.idr s.samples)).toNat +
          64 * (misoLevel (env.idr (s.samples + 1))).toNat +
          32 * (misoLevel (env.idr (s.samples + 2))).toNat +
          16 * (misoLevel (env.idr (s.samples + 3))).toNat +
          8 * (misoLevel (env.idr (s.samples + 4))).toNat +
          4 * (misoLevel (env.idr (s.samples + 5))).toNat +
          2 * (misoLevel (env.idr (s.samples + 6))).toNat +
          (misoLevel (env.idr (s.samples + 7))).toNat ∧
      idrReads (s'.trace.drop s.trace.length) =
        [env.idr s.samples, env.idr (s.samples + 1), env.idr (s.samples + 2), env.idr (s.samples + 3), env.idr (s.samples + 4), env.idr (s.samples + 5), env.idr (s.samples + 6), env.idr (s.samples + 7)] ∧
      (∀ fuel2 data2 rx2 s2, SPI_Transfer env fuel2 data2 s = some (rx2, s2) → rx2 = rx) ∧
      (data < 256 →
        (∀ k, k < 8 → misoLevel (env.idr (s.samples + k)) = data.testBit (7 - k)) →
        rx = data)) ∧
    (env.live → counting s = true → 640 < fuel → ∃ r, SPI_Transfer env fuel data s = some r) := by
  refine ⟨?_, fun hl hc hf => SPI_Transfer_total env hl fuel data s hc hf⟩
  intro rx s' h
  have hrx : rx = shiftIn env 8 0 s.samples := (SPI_Transfer_spec h).2.1
  refine ⟨?_, ?_, ?_, ?_⟩
  · rw [hrx, shiftIn_eight]
  · rw [SPI_Transfer_log h, List.drop_left]
    simp only [idrReads]
  · intro fuel2 data2 rx2 s2 h2
    rw [hrx]
    exact (SPI_Transfer_spec h2).2.1
  · intro hd hm
    rw [hrx, shiftIn_eight]
    have e0 := hm 0 (by norm_num)
    have e1 := hm 1 (by norm_num)
    have e2 := hm 2 (by norm_num)
    have e3 := hm 3 (by norm_num)
    have e4 := hm 4 (by norm_num)
    have e5 := hm 5 (by norm_num)
    have e6 := hm 6 (by norm_num)
    have e7 := hm 7 (by norm_num)
    simp only [Nat.add_zero, Nat.reduceSub] at e0 e1 e2 e3 e4 e5 e6 e7
    rw [e0, e1, e2, e3, e4, e5, e6, e7]
    exact byte_of_bits data hd

/-- C3: for every byte `data`, every environment and every start state, a returning
`SPI_Transfer` has appended to the log exactly: select low; then for `k = 0 .. 7` the
MOSI store of bit `7 - k` of `data`, the clock-high store, `delay_us(10)`, the read of
the input register, the clock-low store, `delay_us(10)`; then select high.  So MOSI is
driven exactly eight times, MSB first, each time before the rising edge, and each
sample follows the rising edge and one delay and precedes the falling edge.  With a
running counter in a live environment the call returns. -/
theorem SPI_Transfer_mosi_order (env : Env) (fuel data : Nat) (s : Hw) :
    (∀ rx s', SPI_Transfer env fuel data s = some (rx, s') →
      s'.trace = s.trace ++
        [Event.bsrr (1 <<< (SPI_CS + 16)),
          Event.bsrr (mosiWord (data.testBit 7)),
          Event.bsrr (1 <<< SPI_SCK),
          Event.delay_us 10,
          Event.idr (env.idr s.samples),
          Event.bsrr (1 <<< (SPI_SCK + 16)),
          Event.delay_us 10,
          Event.bsrr (mosiWord (data.testBit 6)),
          Event.bsrr (1 <<< SPI_SCK),
          Event.delay_us 10,
          Event.idr (env.idr (s.samples + 1)),
          Event.bsrr (1 <<< (SPI_SCK + 16)),
          Event.delay_us 10,
          Event.bsrr (mosiWord (data.testBit 5)),
          Event.bsrr (1 <<< SPI_SCK),
          Event.delay_us 10,
          Event.idr (env.idr (s.samples + 2)),
          Event.bsrr (1 <<< (SPI_SCK + 16)),
          Event.delay_us 10,
          Event.bsrr (mosiWord (data.testBit 4)),
          Event.bsrr (1 <<< SPI_SCK),
          Event.delay_us 10,
          Event.idr (env.idr (s.samples + 3)),
          Event.bsrr (1 <<< (SPI_SCK + 16)),
          Event.delay_us 10,
          Event.bsrr (mosiWord (data.testBit 3)),
          Event.bsrr (1 <<< SPI_SCK),
          Event.delay_us 10,
          Event.idr (env.idr (s.samples + 4)),
          Event.bsrr (1 <<< (SPI_SCK + 16)),
          Event.delay_us 10,
          Event.bsrr (mosiWord (data.testBit 2)),
          Event.bsrr (1 <<< SPI_SCK),
          Event.delay_us 10,
          Event.idr (env.idr (s.samples + 5)),
          Event.bsrr (1 <<< (SPI_SCK + 16)),
          Event.delay_us 10,
          Event.bsrr (mosiWord (data.testBit 1)),
          Event.bsrr (1 <<< SPI_SCK),
          Event.delay_us 10,
          Event.idr (env.idr (s.samples + 6)),
          Event.bsrr (1 <<< (SPI_SCK + 16)),
          Event.delay_us 10,
          Event.bsrr (mosiWord (data.testBit 0)),
          Event.bsrr (1 <<< SPI_SCK),
          Event.delay_us 10,
          Event.idr (env.idr (s.samples + 7)),
          Event.bsrr (1 <<< (SPI_SCK + 16)),
          Event.delay_us 10,
          Event.bsrr (1 <<< SPI_CS)] ∧
      mosiLevels (s'.trace.drop s.trace.length) =
        [data.testBit 7, data.testBit 6, data.testBit 5, data.testBit 4, data.testBit 3, data.testBit 2, data.testBit 1, data.testBit 0]) ∧
    (env.live → counting s = true → 640 < fuel → ∃ r, SPI_Transfer env fuel data s = some r) := by
  refine ⟨?_, fun hl hc hf => SPI_Transfer_total env hl fuel data s hc hf⟩
  intro rx s' h
  have ht := SPI_Transfer_log h
  refine ⟨ht, ?_⟩
  rw [ht, List.drop_left]
  simp only [mosiLevels_mosi, mosiLevels_sck_high, mosiLevels_sck_low, mosiLevels_cs_high,
    mosiLevels_cs_low, mosiLevels_delay, mosiLevels_idr, mosiLevels_nil]

end SPI_GPIO_main

namespace SPI_GPIO_main
open Stm32

/-- C4: `GPIO_Init_SPI` leaves select high and the clock low.  For every byte and every
environment, a returning `SPI_Transfer` started there has appended to the log the
select-low store, then a body of 48 events none of which stores to the select pin,
then the select-high store; the body holds the 8 clock-high stores, the 8 clock-low
stores and the 16 `delay_us(10)` calls.  Select is low after each of the first 49
events (so during all 16 delays), high at the end, and the clock is low at the end.
With a running counter in a live environment the call returns. -/
theorem SPI_Transfer_select_bracket (env : Env) (fuel data : Nat) (s0 : Hw) :
    (GPIO_Init_SPI s0).ODR.testBit SPI_CS = true ∧
    (GPIO_Init_SPI s0).ODR.testBit SPI_SCK = false ∧
    (∀ rx s', SPI_Transfer env fuel data (GPIO_Init_SPI s0) = some (rx, s') →
      ∃ body : List Event,
        s'.trace = (GPIO_Init_SPI s0).trace ++
          (Event.bsrr (1 <<< (SPI_CS + 16)) :: body ++ [Event.bsrr (1 <<< SPI_CS)]) ∧
        (∀ e ∈ body, keepsSelect e) ∧
        body.length = 48 ∧
        body.count (Event.bsrr (1 <<< SPI_SCK)) = 8 ∧
        body.count (Event.bsrr (1 <<< (SPI_SCK + 16))) = 8 ∧
        body.count (Event.delay_us 10) = 16 ∧
        (∀ n, 1 ≤ n → n ≤ 49 →
          (odrAfter (GPIO_Init_SPI s0).ODR
            ((Event.bsrr (1 <<< (SPI_CS + 16)) :: body ++
              [Event.bsrr (1 <<< SPI_CS)]).take n)).testBit SPI_CS = false) ∧
        s'.ODR = odrAfter (GPIO_Init_SPI s0).ODR
          (Event.bsrr (1 <<< (SPI_CS + 16)) :: body ++ [Event.bsrr (1 <<< SPI_CS)]) ∧
        s'.ODR.testBit SPI_CS = true ∧
        s'.ODR.testBit SPI_SCK = false) ∧
    (env.live → counting s0 = true → 640 < fuel →
      ∃ r, SPI_Transfer env fuel data (GPIO_Init_SPI s0) = some r) := by
  refine ⟨(GPIO_Init_SPI_pins s0).1, (GPIO_Init_SPI_pins s0).2, ?_,
    fun hl hc hf => SPI_Transfer_total env hl fuel data _ hc hf⟩
  intro rx s' h
  obtain ⟨ht, _, ho, _⟩ := SPI_Transfer_spec h
  have hk := cyclesTrace_keepsSelect env data 8 (GPIO_Init_SPI s0).samples
  have hlen := cyclesTrace_length env data 8 (GPIO_Init_SPI s0).samples
  refine ⟨cyclesTrace env data 8 (GPIO_Init_SPI s0).samples, ht, hk, hlen,
    cyclesTrace_count_rise env data 8 _, cyclesTrace_count_fall env data 8 _,
    cyclesTrace_count_delay env data 8 _, ?_, ho, ?_, ?_⟩
  · intro n h1 h2
    exact select_low_during _ _ hk n h1 (by rw [hlen]; omega)
  · have e : s'.ODR = wrODR (odrAfter (GPIO_Init_SPI s0).ODR
        (Event.bsrr (1 <<< (SPI_CS + 16)) ::
          cyclesTrace env data 8 (GPIO_Init_SPI s0).samples)) (1 <<< SPI_CS) := by
      have hh : s'.ODR = _ := ho
      rw [hh, odrAfter_append]
      rfl
    have e1 : (1 <<< SPI_CS : Nat).testBit SPI_CS = true := by decide
    rw [e, testBit_wrODR _ _ SPI_CS (by decide), e1]
    simp
  · have e : s'.ODR = wrODR (odrAfter (wrODR (GPIO_Init_SPI s0).ODR (1 <<< (SPI_CS + 16)))
        (cyclesTrace env data 8 (GPIO_Init_SPI s0).samples)) (1 <<< SPI_CS) := by
      have hh : s'.ODR = _ := ho
      rw [hh, odrAfter_append]
      rfl
    have e1 : (1 <<< SPI_CS : Nat).testBit SPI_SCK = false := by decide
    have e2 : (1 <<< SPI_CS : Nat).testBit (16 + SPI_SCK) = false := by decide
    rw [e, testBit_wrODR _ _ SPI_SCK (by decide), e1, e2,
      clock_low_after_cycles env data 7 _ _]
    simp

end SPI_GPIO_main

namespace SPI_GPIO_main
open Stm32

/-- Witness for C2: in the loop-back environment the byte `0b10110010` comes back. -/
theorem SPI_Transfer_result_witness :
    (∃ s', SPI_Transfer mirror178 10 178 (GPIO_Init_SPI (DWT_Init reset)) = some (178, s')) ∧
    (∃ r, SPI_Transfer mirror178 641 178 (GPIO_Init_SPI (DWT_Init reset)) = some r) := by
  constructor
  · obtain ⟨r, hr⟩ :
        ∃ r, SPI_Transfer mirror178 10 178 (GPIO_Init_SPI (DWT_Init reset)) = some r :=
      ⟨_, rfl⟩
    obtain ⟨rx, s'⟩ := r
    have e : rx = 178 :=
      ((SPI_Transfer_result mirror178 10 178 (GPIO_Init_SPI (DWT_Init reset))).1 rx s'
        hr).2.2.2 (by decide) (by decide)
    subst e
    exact ⟨s', hr⟩
  · exact (SPI_Transfer_result mirror178 641 178 (GPIO_Init_SPI (DWT_Init reset))).2
      mirror178_live (by decide) (by decide)

/-- Witness for C3: the MOSI levels of a transfer of `0b10110010`. -/
theorem SPI_Transfer_mosi_order_witness :
    ∃ rx s', SPI_Transfer mirror178 10 178 (GPIO_Init_SPI (DWT_Init reset)) = some (rx, s') ∧
      mosiLevels (s'.trace.drop (GPIO_Init_SPI (DWT_Init reset)).trace.length) =
        [true, false, true, true, false, false, true, false] :=
  ⟨_, _, rfl,
    ((SPI_Transfer_mosi_order mirror178 10 178 (GPIO_Init_SPI (DWT_Init reset))).1 _ _ rfl).2⟩

/-- Witness for C4: a transfer after `DWT_Init` and `GPIO_Init_SPI` returns with select
high and the clock low. -/
theorem SPI_Transfer_select_bracket_witness :
    ∃ rx s', SPI_Transfer mirror178 10 178 (GPIO_Init_SPI (DWT_Init reset)) = some (rx, s') ∧
      s'.ODR.testBit SPI_CS = true ∧ s'.ODR.testBit SPI_SCK = false ∧
      ∃ r, SPI_Transfer mirror178 641 178 (GPIO_Init_SPI (DWT_Init reset)) = some r := by
  obtain ⟨r, hr⟩ :
      ∃ r, SPI_Transfer mirror178 10 178 (GPIO_Init_SPI (DWT_Init reset)) = some r :=
    ⟨_, rfl⟩
  obtain ⟨rx, s'⟩ := r
  obtain ⟨body, hb⟩ :=
    (SPI_Transfer_select_bracket mirror178 10 178 (DWT_Init reset)).2.2.1 rx s' hr
  exact ⟨rx, s', hr, hb.2.2.2.2.2.2.2.2.1, hb.2.2.2.2.2.2.2.2.2,
    (SPI_Transfer_select_bracket mirror178 641 178 (DWT_Init reset)).2.2.2 mirror178_live
      (by decide) (by decide)⟩

end SPI_GPIO_main

namespace UART_GPIO_main
open Stm32

/-- C5: for every byte, every environment (whatever the counter reads when the waits
return) and every start state, with `t0` the counter value read right after the start
bit is driven low, the deadlines of the ten `wait_until` calls of a returning
`UART_SendByte` are `(t0 + j * BIT_CYCLES) mod 2^32` for `j = 1 .. 10`, the last being
`(t0 + 10 * BIT_CYCLES) mod 2^32`.  With a running counter in a live environment the
call returns. -/
theorem UART_SendByte_deadlines (env : Env) (SCC fuel b : Nat) (s : Hw) :
    (∀ s', UART_SendByte env SCC fuel b s = some s' →
      waitDeadlines (s'.trace.drop s.trace.length) =
        [((rd_CYCCNT env (tx_low (__disable_irq s))).1 + 1 * BIT_CYCLES SCC) % 4294967296,
          ((rd_CYCCNT env (tx_low (__disable_irq s))).1 + 2 * BIT_CYCLES SCC) % 4294967296,
          ((rd_CYCCNT env (tx_low (__disable_irq s))).1 + 3 * BIT_CYCLES SCC) % 4294967296,
          ((rd_CYCCNT env (tx_low (__disable_irq s))).1 + 4 * BIT_CYCLES SCC) % 4294967296,
          ((rd_CYCCNT env (tx_low (__disable_irq s))).1 + 5 * BIT_CYCLES SCC) % 4294967296,
          ((rd_CYCCNT env (tx_low (__disable_irq s))).1 + 6 * BIT_CYCLES SCC) % 4294967296,
          ((rd_CYCCNT env (tx_low (__disable_irq s))).1 + 7 * BIT_CYCLES SCC) % 4294967296,
          ((rd_CYCCNT env (tx_low (__disable_irq s))).1 + 8 * BIT_CYCLES SCC) % 4294967296,
          ((rd_CYCCNT env (tx_low (__disable_irq s))).1 + 9 * BIT_CYCLES SCC) % 4294967296,
          ((rd_CYCCNT env (tx_low (__disable_irq s))).1 + 10 * BIT_CYCLES SCC) % 4294967296]) ∧
    (env.live → counting s = true → 2147483648 < fuel →
      ∃ s', UART_SendByte env SCC fuel b s = some s') := by
  refine ⟨?_, fun hl hc hf => UART_SendByte_total env hl SCC fuel b s hc hf⟩
  intro s' h
  rw [UART_SendByte_log h, List.drop_left]
  have e0 : (rd_CYCCNT env (tx_low (__disable_irq s))).1 = s.CYCCNT % 4294967296 := rfl
  rw [e0]
  simp only [waitDeadlines, List.cons.injEq, and_true]
  omega

/-- Witness for C5: the deadlines of a frame at three cycles per bit, started two
cycles before the counter wraps. -/
theorem UART_SendByte_deadlines_witness :
    ∃ s', UART_SendByte tick 28800 10 72 nearWrap = some s' ∧
      waitDeadlines (s'.trace.drop nearWrap.trace.length) = [1, 4, 7, 10, 13, 16, 19, 22, 25, 28] ∧
      ∃ s2, UART_SendByte tick 28800 2147483649 72 nearWrap = some s2 :=
  ⟨_, rfl, (UART_SendByte_deadlines tick 28800 10 72 nearWrap).1 _ rfl,
    (UART_SendByte_deadlines tick 28800 2147483649 72 nearWrap).2 tick_live (by decide)
      (by decide)⟩

/-- C6: `wait_until(d)` polls again exactly when `(counter - d) mod 2^32`, read as a
signed 32-bit integer, is negative, and returns otherwise.  Under the
one-cycle-per-poll clock with a running counter, if `k = (d - c0) mod 2^32 ≤ 2^31`
it returns at poll number `k` (counted from zero and not before), the poll at which the
counter, wrapping modulo `2^32`, equals `d`.  When the deadline lies `0` to
`2^31 - 1` cycles in the past it returns after a single poll. -/
theorem wait_until_wrap_safe (d : Nat) (s : Hw) :
    (∀ env fuel, toInt32 (sub32 s.CYCCNT d) < 0 →
      wait_until env (fuel + 1) d s =
        wait_until_spin env d fuel
          (rd_CYCCNT env { s with trace := s.trace ++ [Event.wait_until d] }).2) ∧
    (∀ env fuel, ¬ toInt32 (sub32 s.CYCCNT d) < 0 →
      wait_until env (fuel + 1) d s =
        some (rd_CYCCNT env { s with trace := s.trace ++ [Event.wait_until d] }).2) ∧
    (counting s = true → sub32 d s.CYCCNT ≤ 2147483648 →
      (∀ fuel, fuel ≤ sub32 d s.CYCCNT → wait_until tick fuel d s = none) ∧
      (∀ fuel, sub32 d s.CYCCNT < fuel →
        wait_until tick fuel d s =
          some { s with CYCCNT := (d + 1) % 4294967296,
                        polls := s.polls + sub32 d s.CYCCNT + 1,
                        trace := s.trace ++ [Event.wait_until d] }) ∧
      (s.CYCCNT + sub32 d s.CYCCNT) % 4294967296 = d % 4294967296) ∧
    (∀ env fuel, sub32 s.CYCCNT d < 2147483648 →
      ∃ s', wait_until env (fuel + 1) d s = some s' ∧ s'.polls = s.polls + 1) := by
  refine ⟨?_, ?_, ?_, ?_⟩
  · intro env fuel h
    unfold wait_until
    rw [wait_until_spin, if_pos]
    rw [rd_fst, sub32_mod_left]
    exact h
  · intro env fuel h
    unfold wait_until
    rw [wait_until_spin, if_neg]
    rw [rd_fst, sub32_mod_left]
    exact h
  · intro hc hk
    refine ⟨?_, ?_, ?_⟩
    · intro fuel hf
      exact wait_until_spin_tick_none d fuel
        { s with trace := s.trace ++ [Event.wait_until d] } hc hk hf
    · intro fuel hf
      exact wait_until_spin_tick d _ { s with trace := s.trace ++ [Event.wait_until d] } hc rfl
        hk fuel hf
    · unfold sub32
      omega
  · intro env fuel h
    refine ⟨(rd_CYCCNT env { s with trace := s.trace ++ [Event.wait_until d] }).2, ?_, ?_⟩
    · unfold wait_until
      rw [wait_until_spin, if_neg]
      rw [rd_fst, sub32_mod_left, toInt32_neg_iff]
      have : sub32 s.CYCCNT d % 4294967296 = sub32 s.CYCCNT d :=
        Nat.mod_eq_of_lt (Nat.mod_lt _ (by norm_num))
      show ¬ 2147483648 ≤ sub32 s.CYCCNT d % 4294967296
      omega
    · exact polls_rd env _

/-- Witness for C6: from two cycles before the wrap, the deadline `1` is reached at the
fourth poll, after the counter wrapped. -/
theorem wait_until_wrap_safe_witness :
    wait_until tick 3 1 nearWrap = none ∧
    wait_until tick 4 1 nearWrap =
      some { nearWrap with CYCCNT := 2, polls := 4, trace := [Event.wait_until 1] } :=
  ⟨((wait_until_wrap_safe 1 nearWrap).2.2.1 (by decide) (by decide)).1 3 (by decide),
    ((wait_until_wrap_safe 1 nearWrap).2.2.1 (by decide) (by decide)).2.1 4 (by decide)⟩

end UART_GPIO_main

namespace SPI_GPIO_main
open Stm32

/-- C7: the SPI program computes the threshold in 32 bits, so it is truncated for long
durations.  `delay_us(67108864)` has the threshold `0` where the exact count is
`2^32` cycles, and returns at the first poll of its loop in every environment;
`delay_ms(67109)` has the threshold `8704` where the exact count is `4294976000`
cycles, and under the one-cycle-per-poll clock returns after 8704 cycles.  What the
code does guarantee: a returning `delay_us` left its loop at a poll whose wrap-tolerant
elapsed count is at least the 32-bit threshold, which is the exact count for
`us < 2^26`. -/
theorem delay_truncates (env : Env) (fuel : Nat) (s : Hw) :
    (∀ us s', delay_us env fuel us s = some s' →
      ∃ s1, s' = (rd_CYCCNT env s1).2 ∧
        delay_us_cycles us ≤ sub32 (rd_CYCCNT env s1).1 (rd_CYCCNT env s).1) ∧
    (∀ us, us < 67108864 → delay_us_cycles us = CPU_HZ * us / 1000000) ∧
    delay_us_cycles 67108864 = 0 ∧ CPU_HZ * 67108864 / 1000000 = 4294967296 ∧
    delay_us env (fuel + 1) 67108864 s =
      some (rd_CYCCNT env
        (rd_CYCCNT env { s with trace := s.trace ++ [Event.delay_us 67108864] }).2).2 ∧
    delay_ms_cycles 67109 = 8704 ∧ CPU_HZ * 67109 / 1000 = 4294976000 ∧
    (counting s = true → 8703 < fuel →
      delay_ms tick fuel 67109 s =
        some { s with CYCCNT := (s.CYCCNT + 8705) % 4294967296, polls := s.polls + 8705 }) := by
  have c1 : delay_us_cycles 67108864 = 0 := by decide
  have c2 : delay_ms_cycles 67109 = 8704 := by decide
  refine ⟨?_, ?_, c1, by decide, ?_, c2, by decide, ?_⟩
  · intro us s' h
    unfold delay_us at h
    exact elapsed_spin_exit env _ _ fuel _ _ h
  · intro us hus
    unfold delay_us_cycles CPU_HZ u32
    omega
  · unfold delay_us
    rw [c1, elapsed_spin, if_neg (Nat.not_lt_zero _)]
  · intro hc hf
    unfold delay_ms
    rw [c2, rd_fst, rd_tick s hc,
      elapsed_spin_tick (s.CYCCNT % 4294967296) 8704 (by norm_num) 8703 _
        (by simpa [counting] using hc) (by unfold sub32; dsimp only; omega) fuel hf]
    simp only [Hw.mk.injEq, Option.some.injEq, true_and, and_true]
    omega

/-- Witness for C7: from a freshly started counter `delay_ms(67109)` is over after 8705
polls of one cycle each. -/
theorem delay_truncates_witness :
    delay_ms tick 8704 67109 (DWT_Init reset) =
      some { DWT_Init reset with CYCCNT := 8705, polls := 8705 } :=
  (delay_truncates tick 8704 (DWT_Init reset)).2.2.2.2.2.2.2 (by decide) (by decide)

end SPI_GPIO_main

namespace UART_Perifericos
open Stm32

/-- C8, as stated, fails: for `fclk = 2^32 - 1` and `baud = 2` the 32-bit sum
`fclk + baud / 2` wraps to zero and `brr_from` returns `0`. -/
theorem brr_from_overflow :
    ¬ ∀ fclk baud : Nat, fclk < 4294967296 → baud < 4294967296 → 0 < baud →
      2 * |((brr_from fclk baud : Nat) : Int) * (baud : Int) - (fclk : Int)| ≤ (baud : Int) := by
  intro h
  have h1 := h 4294967295 2 (by norm_num) (by norm_num) (by norm_num)
  have e : brr_from 4294967295 2 = 0 := by decide
  rw [e] at h1
  norm_num at h1

/-- C8, amended: for every 32-bit `fclk` and `baud > 0` whose sum `fclk + baud / 2`
fits in 32 bits, `brr_from fclk baud` is the integer nearest to `fclk / baud`, ties
rounded up: it equals `floor((2 * fclk + baud) / (2 * baud))` and
`2 * |brr_from fclk baud * baud - fclk| ≤ baud`.  The divider the program stores for
64 MHz and 9600 baud is 6667. -/
theorem brr_from_rounds (fclk baud : Nat) (hf : fclk < 4294967296) (hb : baud < 4294967296)
    (h0 : 0 < baud) (hov : fclk + baud / 2 < 4294967296) :
    brr_from fclk baud = (2 * fclk + baud) / (2 * baud) ∧
    2 * |((brr_from fclk baud : Nat) : Int) * (baud : Int) - (fclk : Int)| ≤ (baud : Int) ∧
    USART3_BRR = 6667 ∧ brr_from 64000000 9600 = 6667 := by
  have e : brr_from fclk baud = (fclk + baud / 2) / baud := by
    unfold brr_from u32
    rw [Nat.mod_eq_of_lt hf, Nat.mod_eq_of_lt hb, Nat.mod_eq_of_lt hov]
  refine ⟨?_, ?_, by decide, by decide⟩
  · rw [e, ← Nat.div_div_eq_div_mul]
    congr 1
    omega
  · rw [e]
    have h1 : baud * ((fclk + baud / 2) / baud) + (fclk + baud / 2) % baud = fclk + baud / 2 :=
      Nat.div_add_mod _ _
    have h2 : (fclk + baud / 2) % baud < baud := Nat.mod_lt _ h0
    have hc : baud * ((fclk + baud / 2) / baud) = (fclk + baud / 2) / baud * baud :=
      Nat.mul_comm _ _
    rw [hc] at h1
    have h3 : ((((fclk + baud / 2) / baud * baud : Nat)) : Int) =
        (((fclk + baud / 2) / baud : Nat) : Int) * (baud : Int) := by push_cast; rfl
    rw [← h3]
    generalize (fclk + baud / 2) / baud * baud = P at h1
    rcases le_total 0 ((P : Int) - (fclk : Int)) with hx | hx
    · rw [abs_of_nonneg hx]; omega
    · rw [abs_of_nonpos hx]; omega

end UART_Perifericos

namespace UART_Perifericos
open Stm32

/-- Witness for C8: the clock and baud rate the program uses. -/
theorem brr_from_rounds_witness :
    brr_from 64000000 9600 = (2 * 64000000 + 9600) / (2 * 9600) ∧
      2 * |((brr_from 64000000 9600 : Nat) : Int) * ((9600 : Nat) : Int) -
        ((64000000 : Nat) : Int)| ≤ ((9600 : Nat) : Int) :=
  ⟨(brr_from_rounds 64000000 9600 (by decide) (by decide) (by decide) (by decide)).1,
    (brr_from_rounds 64000000 9600 (by decide) (by decide) (by decide) (by decide)).2.1⟩

end UART_Perifericos

namespace Stm32

theorem DWT_Init_counting (s : Hw) : counting (SPI_GPIO_main.DWT_Init s) = true := by
  unfold counting SPI_GPIO_main.DWT_Init
  simp only [Nat.testBit_or]
  have e1 : (1 <<< 24 : Nat).testBit 24 = true := by decide
  have e2 : (1 <<< 0 : Nat).testBit 0 = true := by decide
  rw [e1, e2]
  simp

theorem elapse_counting (n : Nat) (s : Hw) (hc : counting s = true) :
    elapse n s = { s with CYCCNT := (s.CYCCNT + n) % 4294967296 } := by
  unfold elapse
  rw [if_pos hc]

/-- C9, as stated, fails: five cycles after the first `DWT_Init` the counter reads 5,
but after a second `DWT_Init` at that moment it reads 0. -/
theorem DWT_Init_not_idempotent :
    ¬ ∀ (s : Hw) (n m : Nat) (env : Env),
      (rd_CYCCNT env (elapse m (SPI_GPIO_main.DWT_Init
          (elapse n (SPI_GPIO_main.DWT_Init s))))).1 =
        (rd_CYCCNT env (elapse m (elapse n (SPI_GPIO_main.DWT_Init s)))).1 := by
  intro h
  have h1 := h reset 5 0 tick
  revert h1
  decide

/-- C9, amended: the three programs share one `DWT_Init`.  A second call, `n` cycles
after the first, sets the cycle counter to zero again and changes no other register.
A read `m` cycles later returns `m mod 2^32` where without the second call it returns
`(n + m) mod 2^32`; the counter keeps running, and the elapsed difference between two
reads taken `m` and `m + m2` cycles after the second call is `m2 mod 2^32`, as it is
without the second call. -/
theorem DWT_Init_twice (s : Hw) (n m m2 : Nat) (env : Env) :
    SPI_GPIO_main.DWT_Init = UART_GPIO_main.DWT_Init ∧
    SPI_GPIO_main.DWT_Init = UART_Perifericos.DWT_Init ∧
    SPI_GPIO_main.DWT_Init (elapse n (SPI_GPIO_main.DWT_Init s)) =
      { elapse n (SPI_GPIO_main.DWT_Init s) with CYCCNT := 0 } ∧
    counting (SPI_GPIO_main.DWT_Init (elapse n (SPI_GPIO_main.DWT_Init s))) = true ∧
    (rd_CYCCNT env (elapse m (SPI_GPIO_main.DWT_Init
        (elapse n (SPI_GPIO_main.DWT_Init s))))).1 = m % 4294967296 ∧
    (rd_CYCCNT env (elapse m (elapse n (SPI_GPIO_main.DWT_Init s)))).1 =
      (n + m) % 4294967296 ∧
    sub32
        (rd_CYCCNT env (elapse m2 (elapse m (SPI_GPIO_main.DWT_Init
          (elapse n (SPI_GPIO_main.DWT_Init s)))))).1
        (rd_CYCCNT env (elapse m (SPI_GPIO_main.DWT_Init
          (elapse n (SPI_GPIO_main.DWT_Init s))))).1 = m2 % 4294967296 ∧
    sub32
        (rd_CYCCNT env (elapse m2 (elapse m (elapse n (SPI_GPIO_main.DWT_Init s))))).1
        (rd_CYCCNT env (elapse m (elapse n (SPI_GPIO_main.DWT_Init s)))).1 =
      m2 % 4294967296 := by
  have c1 := DWT_Init_counting s
  have e1 := elapse_counting n _ c1
  have c2 : counting (elapse n (SPI_GPIO_main.DWT_Init s)) = true := by rw [e1]; exact c1
  have c3 := DWT_Init_counting (elapse n (SPI_GPIO_main.DWT_Init s))
  have e3 := elapse_counting m _ c3
  have c4 : counting (elapse m (SPI_GPIO_main.DWT_Init (elapse n (SPI_GPIO_main.DWT_Init s))))
      = true := by rw [e3]; exact c3
  have e4 := elapse_counting m2 _ c4
  have e5 := elapse_counting m _ c2
  have c5 : counting (elapse m (elapse n (SPI_GPIO_main.DWT_Init s))) = true := by
    rw [e5]; exact c2
  have e6 := elapse_counting m2 _ c5
  have z1 : (SPI_GPIO_main.DWT_Init s).CYCCNT = 0 := rfl
  have z2 : (SPI_GPIO_main.DWT_Init (elapse n (SPI_GPIO_main.DWT_Init s))).CYCCNT = 0 := rfl
  refine ⟨rfl, rfl, ?_, c3, ?_, ?_, ?_, ?_⟩
  · rw [e1]
    simp only [SPI_GPIO_main.DWT_Init, Hw.mk.injEq, and_true, true_and]
    have i1 : ∀ x : Nat, x ||| 1 <<< 24 ||| 1 <<< 24 = x ||| 1 <<< 24 := by
      intro x; rw [Nat.or_assoc, Nat.or_self]
    have i2 : ∀ x : Nat, x ||| 1 <<< 0 ||| 1 <<< 0 = x ||| 1 <<< 0 := by
      intro x; rw [Nat.or_assoc, Nat.or_self]
    exact ⟨i1 _, i2 _⟩
  · rw [rd_fst, e3]
    show (0 + m) % 4294967296 % 4294967296 = _
    omega
  · rw [rd_fst, e5, e1]
    show ((0 + n) % 4294967296 + m) % 4294967296 % 4294967296 = _
    omega
  · rw [rd_fst, rd_fst, e4, e3]
    show sub32 (((0 + m) % 4294967296 + m2) % 4294967296 % 4294967296)
      ((0 + m) % 4294967296 % 4294967296) = _
    unfold sub32
    omega
  · rw [rd_fst, rd_fst, e6, e5, e1]
    show sub32 ((((0 + n) % 4294967296 + m) % 4294967296 + m2) % 4294967296 % 4294967296)
      (((0 + n) % 4294967296 + m) % 4294967296 % 4294967296) = _
    unfold sub32
    omega

end Stm32

namespace UART_GPIO_main
open Stm32

/-- C10: the two UART programs share one `delay_ms`, whose 64-bit threshold is
`floor(SystemCoreClock * ms / 1000)` without overflow.  With a running counter under
the one-cycle-per-poll clock the call returns exactly when the threshold is below
`2^32`: it then returns at loop poll `max cycles 1` (the first poll when `cycles = 0`)
and not before; when the threshold is `2^32` or more (as for 64 MHz and 67109 ms) the
call returns for no fuel, in any environment. -/
theorem delay_ms_termination (SCC ms : Nat) (s : Hw) :
    UART_GPIO_main.delay_ms = UART_Perifericos.delay_ms ∧
    delay_ms_cycles SCC ms = (SCC % 4294967296) * (ms % 4294967296) / 1000 ∧
    (counting s = true → delay_ms_cycles SCC ms < 4294967296 →
      (∀ fuel, fuel ≤ delay_ms_cycles SCC ms - 1 → delay_ms tick SCC fuel ms s = none) ∧
      (∀ fuel, delay_ms_cycles SCC ms - 1 < fuel →
        delay_ms tick SCC fuel ms s =
          some { s with CYCCNT := (s.CYCCNT + (delay_ms_cycles SCC ms - 1) + 2) % 4294967296,
                        polls := s.polls + (delay_ms_cycles SCC ms - 1) + 2 })) ∧
    (4294967296 ≤ delay_ms_cycles SCC ms → ∀ env fuel, delay_ms env SCC fuel ms s = none) ∧
    (counting s = true →
      ((∃ fuel s', delay_ms tick SCC fuel ms s = some s') ↔
        delay_ms_cycles SCC ms < 4294967296)) ∧
    4294967296 ≤ delay_ms_cycles 64000000 67109 := by
  have hnever : 4294967296 ≤ delay_ms_cycles SCC ms →
      ∀ env fuel, delay_ms env SCC fuel ms s = none := by
    intro h env fuel
    unfold delay_ms
    exact elapsed_spin_never env _ _ h fuel _
  have hret : counting s = true → delay_ms_cycles SCC ms < 4294967296 →
      ∀ fuel, delay_ms_cycles SCC ms - 1 < fuel →
        delay_ms tick SCC fuel ms s =
          some { s with CYCCNT := (s.CYCCNT + (delay_ms_cycles SCC ms - 1) + 2) % 4294967296,
                        polls := s.polls + (delay_ms_cycles SCC ms - 1) + 2 } := by
    intro hc hlt fuel hf
    unfold delay_ms
    rw [rd_fst, rd_tick s hc,
      elapsed_spin_tick (s.CYCCNT % 4294967296) _ hlt (delay_ms_cycles SCC ms - 1) _
        (by simpa [counting] using hc) (by unfold sub32; dsimp only; omega) fuel hf]
    simp only [Hw.mk.injEq, Option.some.injEq, true_and, and_true]
    omega
  refine ⟨rfl, ?_, ?_, hnever, ?_, by decide⟩
  · unfold delay_ms_cycles u32
    have h1 : SCC % 4294967296 < 4294967296 := Nat.mod_lt _ (by norm_num)
    have h2 : ms % 4294967296 < 4294967296 := Nat.mod_lt _ (by norm_num)
    have h3 : (SCC % 4294967296) * (ms % 4294967296) < 4294967296 * 4294967296 :=
      Nat.mul_lt_mul'' h1 h2
    rw [Nat.mod_eq_of_lt (by omega)]
  · intro hc hlt
    refine ⟨?_, hret hc hlt⟩
    intro fuel hf
    unfold delay_ms
    rw [rd_fst, rd_tick s hc]
    exact elapsed_spin_tick_none (s.CYCCNT % 4294967296) _ hlt fuel _
      (by simpa [counting] using hc) (by unfold sub32; dsimp only; omega)
  · intro hc
    constructor
    · rintro ⟨fuel, s', h⟩
      by_contra hge
      rw [hnever (by omega) tick fuel] at h
      exact absurd h (by simp)
    · intro hlt
      exact ⟨delay_ms_cycles SCC ms + 1, _, hret hc hlt (delay_ms_cycles SCC ms + 1) (by omega)⟩

/-- Witness for C10: at a 64 kHz core clock `delay_ms(1)` is over after 64 loop polls,
and at 64 MHz `delay_ms(67109)` never is. -/
theorem delay_ms_termination_witness :
    delay_ms tick 64000 64 1 (DWT_Init reset) =
      some { DWT_Init reset with CYCCNT := 65, polls := 65 } ∧
    delay_ms tick 64000000 1000000 67109 (DWT_Init reset) = none :=
  ⟨((delay_ms_termination 64000 1 (DWT_Init reset)).2.2.1 (by decide) (by decide)).2 64
      (by decide),
    (delay_ms_termination 64000000 67109 (DWT_Init reset)).2.2.2.1 (by decide) tick 1000000⟩

end UART_GPIO_main
